import Mathlib

/-!
# Verification of the types-app logic engine

A shallow embedding, in Lean 4, of the pure core of the `types-app`
repository (an interactive formal-methods workbench written in TypeScript),
together with theorems settling the frozen claims about its specification.

Modelling conventions, used throughout:

* TypeScript tagged unions become Lean inductive types; records become
  structures.  Field and function names follow the source.
* Entity identifiers are opaque UUID strings in the source; they are kept as
  `String` here.  `id` fields of value-typed data (`Term.id`, `Pattern.id`,
  hypothesis ids) that are generated by `uuidv4()`/`crypto.randomUUID()` and
  never observed by any logic-engine operation (structural equality
  `termsEqual` explicitly ignores them) are omitted from the embedded records;
  where freshness of generated ids matters (goal ids in the tactic engine) the
  generator is modelled by an injective function `uuid : Nat → String` with an
  explicitly threaded counter, mirroring the RFC 4122 v4 uniqueness assumption
  of the spec.
* JavaScript `Map`s become association lists (`JsMap`) with the JS semantics:
  `get` finds the first entry, `set` replaces in place or appends, iteration
  is in insertion order.  `Array.from(map.values())` is `List.map Prod.snd`.
* JavaScript `number`s that the spec treats as mathematical integers are
  modelled as `Int`.
* Functions whose TypeScript recursion is not structurally decreasing
  (the function evaluator, backward derivation search) take an explicit fuel
  argument; `none` at fuel 0 models a computation that has not finished within
  the given bound.  All other recursions are structural, as in the source.
-/

namespace TypesApp

/-! ## JavaScript maps as association lists -/

/-- A JavaScript `Map<string, α>`: entries in insertion order, unique keys. -/
abbrev JsMap (α : Type) := List (String × α)

/-- `Map.get`: the first entry with the given key. -/
def jsGet {α : Type} (m : JsMap α) (k : String) : Option α :=
  (m.find? (fun e => e.1 = k)).map (fun e => e.2)

/-- `Map.has`. -/
def jsHas {α : Type} (m : JsMap α) (k : String) : Bool :=
  (m.find? (fun e => e.1 = k)).isSome

/-- `Map.set`: replace the entry with the given key in place, else append. -/
def jsSet {α : Type} : JsMap α → String → α → JsMap α
  | [], k, v => [(k, v)]
  | e :: rest, k, v => if e.1 = k then (k, v) :: rest else e :: jsSet rest k v

theorem jsGet_nil {α : Type} (k : String) : jsGet ([] : JsMap α) k = none := rfl

theorem jsGet_cons {α : Type} (e : String × α) (m : JsMap α) (k : String) :
    jsGet (e :: m) k = if e.1 = k then some e.2 else jsGet m k := by
  by_cases h : e.1 = k <;> simp [jsGet, List.find?_cons, h]

theorem jsGet_jsSet {α : Type} (m : JsMap α) (k k' : String) (v : α) :
    jsGet (jsSet m k v) k' = if k = k' then some v else jsGet m k' := by
  induction m with
  | nil => by_cases h : k = k' <;> simp [jsSet, jsGet_cons, h]
  | cons e rest ih =>
    simp only [jsSet]
    by_cases he : e.1 = k
    · rw [if_pos he, jsGet_cons, jsGet_cons]
      by_cases h : k = k'
      · simp [h]
      · have hne : ¬ e.1 = k' := fun hh => h (he ▸ hh)
        simp [h, hne]
    · rw [if_neg he, jsGet_cons, ih]
      by_cases h : k = k'
      · have hne : ¬ e.1 = k' := fun hh => he (h ▸ hh)
        simp [h, hne]
      · simp [h, jsGet_cons]

theorem jsGet_eq_none_iff {α : Type} (m : JsMap α) (k : String) :
    jsGet m k = none ↔ ∀ e ∈ m, e.1 ≠ k := by
  simp [jsGet, List.find?_eq_none]

theorem jsGet_mem {α : Type} {m : JsMap α} {k : String} {v : α}
    (h : jsGet m k = some v) : (k, v) ∈ m := by
  simp only [jsGet, Option.map_eq_some'] at h
  obtain ⟨e, he, hv⟩ := h
  have h1 := List.find?_some he
  have h2 := List.mem_of_find?_eq_some he
  simp only [decide_eq_true_eq] at h1
  obtain ⟨k1, v1⟩ := e
  cases h1; cases hv; exact h2

/-! ## Terms and patterns (types/syntax.ts)

The source `Term` record is
`{id, constructorId, args, variableName?, isVariable?}`; atom occurrences
carry `isVariable: true`, a `variableName` and an empty `constructorId`.
The unobserved `id` field is omitted (see the header).  The optional
`isVariable` flag is modelled as a `Bool` (JS `undefined` and `false` are
never distinguished by the engine: every test of the flag is for truthiness).
-/

/-- A concrete term. -/
inductive Term where
  | mk (constructorId : String) (args : List Term) (isVariable : Bool)
       (variableName : Option String)

def Term.constructorId : Term → String
  | .mk c _ _ _ => c

def Term.args : Term → List Term
  | .mk _ a _ _ => a

def Term.isVariable : Term → Bool
  | .mk _ _ v _ => v

def Term.variableName : Term → Option String
  | .mk _ _ _ n => n

/-- A pattern: constructor application, meta-variable leaf, or empty hole
(`constructorId` and `metaVariableId` both absent).  In the source both id
fields are optional strings; nonempty when present (UUIDs), so JS truthiness
coincides with presence. -/
inductive Pattern where
  | mk (constructorId : Option String) (metaVariableId : Option String)
       (args : List Pattern)

def Pattern.constructorId : Pattern → Option String
  | .mk c _ _ => c

def Pattern.metaVariableId : Pattern → Option String
  | .mk _ m _ => m

def Pattern.args : Pattern → List Pattern
  | .mk _ _ a => a

/-- Structural induction principle for `Term` (nested in `List`). -/
theorem Term.indMemOn {motive : Term → Prop}
    (h : ∀ c a v n, (∀ t ∈ a, motive t) → motive (Term.mk c a v n)) :
    ∀ t, motive t
  | .mk c a v n => h c a v n (fun t ht => Term.indMemOn h t)
termination_by t => sizeOf t
decreasing_by
  have := List.sizeOf_lt_of_mem ht
  simp only [Term.mk.sizeOf_spec]
  omega

/-- Structural induction principle for `Pattern` (nested in `List`). -/
theorem Pattern.indArgsOn {motive : Pattern → Prop}
    (h : ∀ c m a, (∀ p ∈ a, motive p) → motive (Pattern.mk c m a)) :
    ∀ p, motive p
  | .mk c m a => h c m a (fun p hp => Pattern.indArgsOn h p)
termination_by p => sizeOf p
decreasing_by
  have := List.sizeOf_lt_of_mem hp
  simp only [Pattern.mk.sizeOf_spec]
  omega

/-! ## Pattern engine (rule-canvas helpers, src/unnamed/part_001) -/

mutual

/-- `isPatternComplete`: no empty holes. -/
def isPatternComplete : Pattern → Bool
  | .mk c m a =>
    if c.isNone && m.isNone then false
    else isPatternCompleteList a

/-- The source's `every` over a pattern's arguments. -/
def isPatternCompleteList : List Pattern → Bool
  | [] => true
  | p :: ps => isPatternComplete p && isPatternCompleteList ps

end

mutual

/-- `termsEqual`: structural term equality, ignoring unique ids. -/
def termsEqual : Term → Term → Bool
  | .mk c1 a1 v1 n1, .mk c2 a2 v2 n2 =>
    if v1 || v2 then v1 == v2 && n1 == n2
    else c1 == c2 && a1.length == a2.length && termsEqualList a1 a2

/-- Pairwise `termsEqual` on argument lists (the source's `every` over
index-aligned arguments, after the length check). -/
def termsEqualList : List Term → List Term → Bool
  | [], [] => true
  | t1 :: r1, t2 :: r2 => termsEqual t1 t2 && termsEqualList r1 r2
  | _, _ => false

end

/-- Fold new bindings into the accumulated map: a key already present must map
to a structurally equal term (then it is re-set), otherwise it is added. -/
def mergeBindings : JsMap Term → JsMap Term → Option (JsMap Term)
  | acc, [] => some acc
  | acc, (k, v) :: rest =>
    match jsGet acc k with
    | some existing =>
      if termsEqual existing v then mergeBindings (jsSet acc k v) rest else none
    | none => mergeBindings (jsSet acc k v) rest

mutual

/-- `matchPattern(term, pattern)`: meta-variable patterns bind unconditionally;
constructor patterns require a non-atom term with the same constructor id and
arity, then match arguments pairwise, merging bindings; empty holes never
match. -/
def matchPattern : Term → Pattern → Option (JsMap Term)
  | t, .mk ctorId mvId pargs =>
    match mvId with
    | some mv => some [(mv, t)]
    | none =>
      match ctorId with
      | some c =>
        if t.isVariable then none
        else if t.constructorId ≠ c then none
        else if t.args.length ≠ pargs.length then none
        else matchPatternArgs t.args pargs []
      | none => none

/-- The source's merge loop over argument positions: match each pair, then
fold the bindings into the accumulator, failing when a meta-variable is
rebound to a structurally different term. -/
def matchPatternArgs : List Term → List Pattern → JsMap Term → Option (JsMap Term)
  | [], [], acc => some acc
  | t :: ts, p :: ps, acc =>
    match matchPattern t p with
    | none => none
    | some bs =>
      match mergeBindings acc bs with
      | none => none
      | some acc' => matchPatternArgs ts ps acc'
  | _, _, _ => none

end

mutual

/-- `substitutePattern(pattern, bindings)`: meta-variables are replaced by
their bound term (failure if unbound), constructor patterns build a fresh
term, holes fail.  The fresh `id` the source generates is omitted. -/
def substitutePattern : Pattern → JsMap Term → Option Term
  | .mk ctorId mvId pargs, b =>
    match mvId with
    | some mv => jsGet b mv
    | none =>
      match ctorId with
      | some c =>
        match substitutePatternArgs pargs b with
        | none => none
        | some args => some (Term.mk c args false none)
      | none => none

/-- The source's argument loop: substitute each argument, failing early. -/
def substitutePatternArgs : List Pattern → JsMap Term → Option (List Term)
  | [], _ => some []
  | p :: ps, b =>
    match substitutePattern p b with
    | none => none
    | some t =>
      match substitutePatternArgs ps b with
      | none => none
      | some ts => some (t :: ts)

end

mutual

/-- The meta-variables a pattern can bind: a meta-variable leaf binds itself
(`matchPattern` never descends below it); a constructor pattern binds those of
its arguments; a hole binds nothing. -/
def patternMetaVars : Pattern → List String
  | .mk _ mvId pargs =>
    match mvId with
    | some mv => [mv]
    | none => patternMetaVarsList pargs

/-- Meta-variables of a list of patterns, in order. -/
def patternMetaVarsList : List Pattern → List String
  | [] => []
  | p :: ps => patternMetaVars p ++ patternMetaVarsList ps

end

/-! ### Lemmas about the pattern engine -/

theorem termsEqualList_refl_of (l : List Term) (h : ∀ t ∈ l, termsEqual t t = true) :
    termsEqualList l l = true := by
  induction l with
  | nil => rfl
  | cons t ts ih =>
    simp only [termsEqualList, Bool.and_eq_true]
    exact ⟨h t (by simp), ih (fun x hx => h x (by simp [hx]))⟩

theorem termsEqual_refl (t : Term) : termsEqual t t = true := by
  induction t using Term.indMemOn with
  | h c a v n ih =>
    simp only [termsEqual]
    by_cases hv : v
    · simp [hv]
    · simp only [hv, Bool.false_or, if_false]
      simp [termsEqualList_refl_of a ih]

theorem substitutePatternArgs_length {ps : List Pattern} {b : JsMap Term}
    {ts : List Term} (h : substitutePatternArgs ps b = some ts) :
    ts.length = ps.length := by
  induction ps generalizing ts with
  | nil => simp only [substitutePatternArgs] at h; cases h; rfl
  | cons p ps ih =>
    simp only [substitutePatternArgs] at h
    cases h1 : substitutePattern p b with
    | none => rw [h1] at h; cases h
    | some t =>
      rw [h1] at h
      cases h2 : substitutePatternArgs ps b with
      | none => rw [h2] at h; cases h
      | some ts' =>
        rw [h2] at h; cases h
        simp [ih h2]

theorem jsSet_mem_sub {b acc : JsMap Term} {k : String} {v : Term}
    (hacc : ∀ e ∈ acc, jsGet b e.1 = some e.2) (hv : jsGet b k = some v) :
    ∀ e ∈ jsSet acc k v, jsGet b e.1 = some e.2 := by
  induction acc with
  | nil =>
    intro e he
    simp only [jsSet, List.mem_singleton] at he
    subst he; exact hv
  | cons e' rest ih =>
    intro e he
    simp only [jsSet] at he
    by_cases h1 : e'.1 = k
    · rw [if_pos h1] at he
      rcases List.mem_cons.mp he with h | h
      · subst h; exact hv
      · exact hacc e (List.mem_cons_of_mem _ h)
    · rw [if_neg h1] at he
      rcases List.mem_cons.mp he with h | h
      · subst h; exact hacc e (List.mem_cons_self _ _)
      · exact ih (fun x hx => hacc x (List.mem_cons_of_mem _ hx)) e h

theorem mergeBindings_spec (b : JsMap Term) :
    ∀ (bs acc : JsMap Term),
      (∀ e ∈ acc, jsGet b e.1 = some e.2) →
      (∀ e ∈ bs, jsGet b e.1 = some e.2) →
      ∃ r, mergeBindings acc bs = some r ∧
        (∀ e ∈ r, jsGet b e.1 = some e.2) ∧
        (∀ k, (jsGet r k).isSome ↔ ((jsGet acc k).isSome ∨ (jsGet bs k).isSome)) := by
  intro bs
  induction bs with
  | nil =>
    intro acc hacc _
    exact ⟨acc, rfl, hacc, fun k => by simp [jsGet_nil]⟩
  | cons e rest ih =>
    intro acc hacc hbs
    obtain ⟨k, v⟩ := e
    have hv : jsGet b k = some v := hbs (k, v) (List.mem_cons_self _ _)
    have hrest : ∀ e ∈ rest, jsGet b e.1 = some e.2 :=
      fun x hx => hbs x (List.mem_cons_of_mem _ hx)
    have hacc' : ∀ e ∈ jsSet acc k v, jsGet b e.1 = some e.2 :=
      jsSet_mem_sub hacc hv
    have hdomset : ∀ k', (jsGet (jsSet acc k v) k').isSome ↔
        (k = k' ∨ (jsGet acc k').isSome) := by
      intro k'
      rw [jsGet_jsSet]
      by_cases h : k = k' <;> simp [h]
    cases hex : jsGet acc k with
    | some existing =>
      have hbe : jsGet b k = some existing := hacc _ (jsGet_mem hex)
      have heq : existing = v := by
        rw [hv] at hbe; injection hbe with h; exact h.symm
      obtain ⟨r, hr, hsub, hdom⟩ := ih (jsSet acc k v) hacc' hrest
      refine ⟨r, ?_, hsub, ?_⟩
      · simp only [mergeBindings, hex, heq, termsEqual_refl, if_true]
        exact hr
      · intro k'
        rw [hdom k', hdomset k', jsGet_cons]
        by_cases h : k = k' <;> simp [h] <;> tauto
    | none =>
      obtain ⟨r, hr, hsub, hdom⟩ := ih (jsSet acc k v) hacc' hrest
      refine ⟨r, ?_, hsub, ?_⟩
      · simp only [mergeBindings, hex]
        exact hr
      · intro k'
        rw [hdom k', hdomset k', jsGet_cons]
        by_cases h : k = k' <;> simp [h] <;> tauto

/-- The inductive content of the substitution/matching round trip, stated for
a single pattern with explicit bookkeeping of the produced binding map. -/
theorem matchPattern_of_substitutePattern :
    ∀ (p : Pattern) (b : JsMap Term) (t : Term),
      substitutePattern p b = some t →
      ∃ r, matchPattern t p = some r ∧
        (∀ e ∈ r, jsGet b e.1 = some e.2) ∧
        (∀ k, (jsGet r k).isSome ↔ k ∈ patternMetaVars p) := by
  intro p
  induction p using Pattern.indArgsOn with
  | h c m a ih =>
    intro b t hsub
    match m with
    | some mv =>
      simp only [substitutePattern] at hsub
      refine ⟨[(mv, t)], rfl, ?_, ?_⟩
      · intro e he
        simp only [List.mem_singleton] at he
        subst he; exact hsub
      · intro k
        simp only [patternMetaVars, jsGet_cons, jsGet_nil, List.mem_singleton]
        by_cases h : mv = k <;> simp [h, eq_comm]
    | none =>
      match c with
      | some cid =>
        simp only [substitutePattern] at hsub
        cases hargs : substitutePatternArgs a b with
        | none => rw [hargs] at hsub; cases hsub
        | some args =>
          rw [hargs] at hsub
          cases hsub
          -- the matcher on the freshly built term
          have hlen : args.length = a.length := substitutePatternArgs_length hargs
          have main : ∀ (ps : List Pattern), (∀ p ∈ ps, ∀ (b : JsMap Term) (t : Term),
                substitutePattern p b = some t →
                ∃ r, matchPattern t p = some r ∧
                  (∀ e ∈ r, jsGet b e.1 = some e.2) ∧
                  (∀ k, (jsGet r k).isSome ↔ k ∈ patternMetaVars p)) →
              ∀ ts acc, substitutePatternArgs ps b = some ts →
                (∀ e ∈ acc, jsGet b e.1 = some e.2) →
                ∃ r, matchPatternArgs ts ps acc = some r ∧
                  (∀ e ∈ r, jsGet b e.1 = some e.2) ∧
                  (∀ k, (jsGet r k).isSome ↔
                    ((jsGet acc k).isSome ∨ k ∈ patternMetaVarsList ps)) := by
            intro ps
            induction ps with
            | nil =>
              intro _ ts acc hts hacc
              simp only [substitutePatternArgs] at hts
              cases hts
              exact ⟨acc, rfl, hacc, fun k => by simp [patternMetaVarsList]⟩
            | cons p ps ihps =>
              intro hmem ts acc hts hacc
              simp only [substitutePatternArgs] at hts
              cases h1 : substitutePattern p b with
              | none => rw [h1] at hts; cases hts
              | some t1 =>
                rw [h1] at hts
                cases h2 : substitutePatternArgs ps b with
                | none => rw [h2] at hts; cases hts
                | some ts1 =>
                  rw [h2] at hts
                  cases hts
                  obtain ⟨r1, hm1, hsub1, hdom1⟩ :=
                    hmem p (List.mem_cons_self _ _) b t1 h1
                  obtain ⟨r2, hmg, hsub2, hdom2⟩ :=
                    mergeBindings_spec b r1 acc hacc hsub1
                  obtain ⟨r3, hm3, hsub3, hdom3⟩ :=
                    ihps (fun q hq => hmem q (List.mem_cons_of_mem _ hq)) ts1 r2 h2 hsub2
                  refine ⟨r3, ?_, hsub3, ?_⟩
                  · simp only [matchPatternArgs, hm1, hmg]
                    exact hm3
                  · intro k
                    rw [hdom3 k, hdom2 k]
                    have : (jsGet r1 k).isSome ↔ k ∈ patternMetaVars p := hdom1 k
                    simp only [patternMetaVarsList, List.mem_append, this]
                    tauto
          obtain ⟨r, hm, hsub, hdom⟩ := main a ih args [] hargs (by intro e he; cases he)
          refine ⟨r, ?_, hsub, ?_⟩
          · show matchPattern (Term.mk cid args false none) (Pattern.mk (some cid) none a) = some r
            simp only [matchPattern, Term.isVariable, Term.constructorId, Term.args,
              ne_eq, not_true_eq_false, if_false, hlen]
            simp [hm]
          · intro k
            rw [hdom k]
            simp [patternMetaVars, jsGet_nil]
      | none =>
        simp only [substitutePattern] at hsub
        exact Option.noConfusion hsub

/-- Modelled from the claim's words: two binding maps are "equal (as a map,
with structurally equal terms)" when every key is bound in one iff it is bound
in the other, with structurally equal terms. -/
def specBindingsEqual (r b : JsMap Term) : Prop :=
  ∀ k, match jsGet r k, jsGet b k with
    | some v, some w => termsEqual v w = true
    | none, none => True
    | _, _ => False

/-- **C5, counterexample.**  Take the complete pattern `p` that is the bare
meta-variable `m`, and the binding map `b = {m ↦ Z, n ↦ Z}` (where `Z` is a
nullary constructor term).  `substitutePattern(p, b)` succeeds and yields `Z`,
and `matchPattern(Z, p)` succeeds, but it returns `{m ↦ Z}`, which is not
equal to `b` as a map: `b` binds the extra meta-variable `n` that does not
occur in `p`.  So the claim as stated is false. -/
theorem C5_counterexample :
    substitutePattern (Pattern.mk none (some "m") [])
        [("m", Term.mk "Z" [] false none), ("n", Term.mk "Z" [] false none)] =
      some (Term.mk "Z" [] false none) ∧
    matchPattern (Term.mk "Z" [] false none) (Pattern.mk none (some "m") []) =
      some [("m", Term.mk "Z" [] false none)] ∧
    ¬ specBindingsEqual [("m", Term.mk "Z" [] false none)]
        [("m", Term.mk "Z" [] false none), ("n", Term.mk "Z" [] false none)] :=
  ⟨rfl, rfl, fun h => h "n"⟩

/-- **C5 (amended).**  For every complete pattern `p` and every binding map
`b` such that `substitutePattern(p, b)` succeeds and yields the term `t`,
`matchPattern(t, p)` succeeds, and the bindings it returns are the restriction
of `b` to the meta-variables occurring in `p`: they agree with `b` on every
meta-variable of `p` and bind nothing else (rather than being equal to all of
`b`, which may bind extra meta-variables). -/
theorem C5_match_substitute_restriction (p : Pattern) (b : JsMap Term) (t : Term)
    (hcomplete : isPatternComplete p = true)
    (hsub : substitutePattern p b = some t) :
    ∃ r, matchPattern t p = some r ∧
      (∀ k, k ∈ patternMetaVars p → jsGet r k = jsGet b k) ∧
      (∀ k, k ∉ patternMetaVars p → jsGet r k = none) := by
  obtain ⟨r, hm, hsubr, hdom⟩ := matchPattern_of_substitutePattern p b t hsub
  refine ⟨r, hm, ?_, ?_⟩
  · intro k hk
    have : (jsGet r k).isSome := (hdom k).mpr hk
    cases hr : jsGet r k with
    | none => rw [hr] at this; cases this
    | some v => exact hr ▸ (hsubr (k, v) (jsGet_mem hr)).symm
  · intro k hk
    have : ¬ (jsGet r k).isSome := fun hs => hk ((hdom k).mp hs)
    cases hr : jsGet r k with
    | none => rfl
    | some v => rw [hr] at this; simp at this

/-- **C5, witness.**  The amended theorem at the pattern `S(m)` with binding
`{m ↦ Z}`: substitution yields `S(Z)`, matching recovers `{m ↦ Z}`. -/
theorem C5_witness :
    ∃ r, matchPattern (Term.mk "S" [Term.mk "Z" [] false none] false none)
        (Pattern.mk (some "S") none [Pattern.mk none (some "m") []]) = some r ∧
      (∀ k, k ∈ patternMetaVars (Pattern.mk (some "S") none [Pattern.mk none (some "m") []]) →
        jsGet r k = jsGet [("m", Term.mk "Z" [] false none)] k) ∧
      (∀ k, k ∉ patternMetaVars (Pattern.mk (some "S") none [Pattern.mk none (some "m") []]) →
        jsGet r k = none) :=
  C5_match_substitute_restriction _ _ _ rfl rfl

/-! ## Metamodel records (types/syntax.ts)

Display-only fields (colors, the atom-sort name seed) are omitted; all other
fields are kept.  Optional JS fields that default to a neutral value under
truthiness tests are modelled with `Option`.
-/

/-- Sort kinds: ordinary inductive sorts versus atom (name) sorts. -/
inductive SortKind where
  | inductive_
  | atom
deriving DecidableEq

/-- A syntactic sort. -/
structure SortRec where
  id : String
  name : String
  kind : SortKind
  isBinderSort : Bool

/-- A constructor argument. -/
structure ConstructorArg where
  id : String
  sortId : String
  label : Option String
  isBinder : Bool
  bindsIn : List String

/-- A constructor of an inductive sort.  `isTerminal` is the stored derived
attribute (no argument of the constructor's own sort). -/
structure Constructor where
  id : String
  sortId : String
  name : String
  args : List ConstructorArg
  isTerminal : Bool

/-- One argument position of a judgment. -/
structure JudgmentArgSort where
  sortId : String
  label : String

/-- A judgment (relation) with its separator strings. -/
structure Judgment where
  id : String
  name : String
  symbol : String
  separators : List String
  argSorts : List JudgmentArgSort

/-- A premise or conclusion occurrence of a judgment inside a rule. -/
structure JudgmentInstance where
  id : String
  judgmentId : String
  args : List Pattern

/-- A meta-variable declaration. -/
structure MetaVariable where
  id : String
  name : String
  sortId : String

/-! Function-body expressions (needed below both by side conditions and by
the function engine). -/

mutual

/-- `FuncExpr`: expressions in recursive-function bodies.  JS numbers are
modelled as `Int` (the spec reads them as mathematical integers). -/
inductive FuncExpr where
  | int (value : Int)
  | empty
  | singleton (element : FuncExpr)
  | var (name : String)
  | call (funcId : String) (arg : FuncExpr)
  | callMulti (funcId : String) (args : List FuncExpr)
  | construct (constructorId : String) (args : List FuncExpr)
  | add (left right : FuncExpr)
  | sub (left right : FuncExpr)
  | mul (left right : FuncExpr)
  | max (left right : FuncExpr)
  | min (left right : FuncExpr)
  | union (left right : FuncExpr)
  | intersect (left right : FuncExpr)
  | diff (left right : FuncExpr)
  | if_ (cond : FuncPredicate) (then_ : FuncExpr) (else_ : FuncExpr)

/-- `FuncPredicate`: predicates in function-body conditionals. -/
inductive FuncPredicate where
  | eq (left right : FuncExpr)
  | neq (left right : FuncExpr)
  | lt (left right : FuncExpr)
  | leq (left right : FuncExpr)
  | gt (left right : FuncExpr)
  | geq (left right : FuncExpr)
  | atomEq (left right : FuncExpr)
  | atomNeq (left right : FuncExpr)
  | in_ (element : FuncExpr) (set : FuncExpr)
  | subset (left right : FuncExpr)
  | isEmpty (set : FuncExpr)
  | and (left right : FuncPredicate)
  | or (left right : FuncPredicate)
  | not (pred : FuncPredicate)

end

/-- `RuleFuncPredicate`: function predicates usable as rule side conditions. -/
inductive RuleFuncPredicate where
  | eq (funcId : String) (arg : Pattern) (value : FuncExpr)
  | neq (funcId : String) (arg : Pattern) (value : FuncExpr)
  | lt (funcId : String) (arg : Pattern) (value : FuncExpr)
  | leq (funcId : String) (arg : Pattern) (value : FuncExpr)
  | gt (funcId : String) (arg : Pattern) (value : FuncExpr)
  | geq (funcId : String) (arg : Pattern) (value : FuncExpr)
  | isEmpty (funcId : String) (arg : Pattern)
  | notEmpty (funcId : String) (arg : Pattern)
  | in_ (element : Pattern) (funcId : String) (arg : Pattern)
  | notIn (element : Pattern) (funcId : String) (arg : Pattern)

/-- A side condition of a rule. -/
structure SideCondition where
  id : String
  predicate : RuleFuncPredicate

/-- An inference rule.  `position` is the drag-and-drop coordinate pair. -/
structure InferenceRule where
  id : String
  name : String
  premises : List JudgmentInstance
  sideConditions : List SideCondition
  conclusion : JudgmentInstance
  position : Int × Int

/-! ## Rule completeness (src/unnamed/part_001) -/

/-- `isJudgmentInstanceComplete`: every argument pattern complete. -/
def isJudgmentInstanceComplete (inst : JudgmentInstance) : Bool :=
  inst.args.all isPatternComplete

/-- `isRuleComplete`: conclusion and all premises complete. -/
def isRuleComplete (rule : InferenceRule) : Bool :=
  isJudgmentInstanceComplete rule.conclusion &&
    rule.premises.all isJudgmentInstanceComplete

/-! ## Syntax-directedness analysis (App.tsx `analyzesSyntaxDirected`) -/

/-- A reported overlap between two rules at one conclusion position. -/
structure OverlapInfo where
  rule1Id : String
  rule2Id : String
  overlappingPosition : Nat
  description : String

/-- The analysis result. -/
structure SyntaxDirectedAnalysis where
  isSyntaxDirected : Bool
  overlaps : List OverlapInfo

mutual

/-- `patternsCanOverlap`: meta-variables overlap everything; constructor
patterns with different ids never overlap; with the same head the arguments
are compared pairwise up to the shorter length. -/
def patternsCanOverlap : Pattern → Pattern → Bool
  | .mk c1 m1 a1, .mk c2 m2 a2 =>
    if m1.isSome || m2.isSome then true
    else if c1.isSome ∧ c2.isSome ∧ c1 ≠ c2 then false
    else if c1 = c2 then patternsCanOverlapArgs a1 a2
    else true

/-- The source's loop over `min(|a1|, |a2|)` argument positions; `true` when
either list is exhausted. -/
def patternsCanOverlapArgs : List Pattern → List Pattern → Bool
  | p :: ps, q :: qs =>
    if !patternsCanOverlap p q then false else patternsCanOverlapArgs ps qs
  | _, _ => true

end

/-- The overlaps the source's inner position loop records for one rule pair.
Out-of-range indexing (possible only on ill-formed registries, where the JS
code would throw) is modelled by an empty-hole default. -/
def overlapsBetween (rule1 rule2 : InferenceRule) : List OverlapInfo :=
  (List.range rule1.conclusion.args.length).filterMap fun pos =>
    if patternsCanOverlap (rule1.conclusion.args.getD pos (Pattern.mk none none []))
        (rule2.conclusion.args.getD pos (Pattern.mk none none [])) then
      some ⟨rule1.id, rule2.id, pos,
        s!"Rules \"{rule1.name}\" and \"{rule2.name}\" can both match at position {pos}"⟩
    else none

/-- The source's double loop over rule pairs `(i, j)` with `i < j`. -/
def collectOverlaps : List InferenceRule → List OverlapInfo
  | [] => []
  | r :: rest => (rest.map (fun r2 => overlapsBetween r r2)).flatten ++ collectOverlaps rest

/-- `analyzesSyntaxDirected`: keep the rules concluding the judgment, record
every overlapping pair/position, and report syntax-directed iff no overlap was
recorded. -/
def analyzesSyntaxDirected (judgment : Judgment) (rules : List InferenceRule)
    (_constructors : JsMap Constructor) : SyntaxDirectedAnalysis :=
  let relevantRules := rules.filter (fun r => r.conclusion.judgmentId = judgment.id)
  let overlaps := collectOverlaps relevantRules
  ⟨overlaps.length == 0, overlaps⟩

/-- Modelled from the claim's words: a pair of rules overlaps when their
conclusion patterns can overlap at **every** argument position. -/
def specPairOverlapsEverywhere (r1 r2 : InferenceRule) : Prop :=
  ∀ pos < r1.conclusion.args.length,
    patternsCanOverlap (r1.conclusion.args.getD pos (Pattern.mk none none []))
      (r2.conclusion.args.getD pos (Pattern.mk none none [])) = true

/-- Modelled from the claim's words: syntax-directed iff no pair of rules (for
the judgment) overlaps in every conclusion position. -/
def specSyntaxDirected (judgment : Judgment) (rules : List InferenceRule) : Prop :=
  List.Pairwise (fun r1 r2 => ¬ specPairOverlapsEverywhere r1 r2)
    (rules.filter (fun r => r.conclusion.judgmentId = judgment.id))

theorem overlapsBetween_eq_nil_iff (r1 r2 : InferenceRule) :
    overlapsBetween r1 r2 = [] ↔
      ∀ pos < r1.conclusion.args.length,
        patternsCanOverlap (r1.conclusion.args.getD pos (Pattern.mk none none []))
          (r2.conclusion.args.getD pos (Pattern.mk none none [])) = false := by
  rw [overlapsBetween, List.filterMap_eq_nil_iff]
  constructor
  · intro h pos hpos
    have := h pos (List.mem_range.mpr hpos)
    by_cases hc : patternsCanOverlap (r1.conclusion.args.getD pos (Pattern.mk none none []))
        (r2.conclusion.args.getD pos (Pattern.mk none none [])) = true
    · rw [if_pos hc] at this; cases this
    · simpa using hc
  · intro h pos hpos
    by_cases hc : patternsCanOverlap (r1.conclusion.args.getD pos (Pattern.mk none none []))
        (r2.conclusion.args.getD pos (Pattern.mk none none [])) = true
    · rw [h pos (List.mem_range.mp hpos)] at hc; cases hc
    · rw [if_neg hc]

theorem collectOverlaps_eq_nil_iff :
    ∀ l : List InferenceRule,
      collectOverlaps l = [] ↔ List.Pairwise (fun a b => overlapsBetween a b = []) l := by
  intro l
  induction l with
  | nil => simp [collectOverlaps]
  | cons r rest ih =>
    simp only [collectOverlaps, List.append_eq_nil, List.pairwise_cons, ih,
      List.flatten_eq_nil_iff, List.mem_map]
    constructor
    · rintro ⟨h1, h2⟩
      exact ⟨fun b hb => h1 _ ⟨b, hb, rfl⟩, h2⟩
    · rintro ⟨h1, h2⟩
      exact ⟨fun x ⟨b, hb, hx⟩ => hx ▸ h1 b hb, h2⟩

/-- **C4, counterexample.**  A binary judgment `J` with two rules whose
conclusions are `(Z, m₁)` and `(S(m₂), m₃)` (meta-variables in the second
position): the pair is disjoint at position 0 (different head constructors)
and overlaps only at position 1 — so by the claim's criterion ("syntax-directed
iff no pair of rules overlaps in every position") the judgment is
syntax-directed, yet `analyzesSyntaxDirected` records the position-1 overlap
and reports it non-syntax-directed.  The claim as stated is false. -/
theorem C4_counterexample :
    (analyzesSyntaxDirected
      ⟨"J", "P", "P", ["", " P ", ""], [⟨"nat", "a"⟩, ⟨"nat", "b"⟩]⟩
      [⟨"r1", "R1", [], [],
          ⟨"c1", "J", [Pattern.mk (some "Z") none [], Pattern.mk none (some "m1") []]⟩, (0, 0)⟩,
       ⟨"r2", "R2", [], [],
          ⟨"c2", "J", [Pattern.mk (some "S") none [Pattern.mk none (some "m2") []],
                       Pattern.mk none (some "m3") []]⟩, (0, 0)⟩]
      []).isSyntaxDirected = false ∧
    specSyntaxDirected
      ⟨"J", "P", "P", ["", " P ", ""], [⟨"nat", "a"⟩, ⟨"nat", "b"⟩]⟩
      [⟨"r1", "R1", [], [],
          ⟨"c1", "J", [Pattern.mk (some "Z") none [], Pattern.mk none (some "m1") []]⟩, (0, 0)⟩,
       ⟨"r2", "R2", [], [],
          ⟨"c2", "J", [Pattern.mk (some "S") none [Pattern.mk none (some "m2") []],
                       Pattern.mk none (some "m3") []]⟩, (0, 0)⟩] := by
  constructor
  · rfl
  · refine List.Pairwise.cons ?_ (List.pairwise_singleton _ _)
    intro r2 hr2 hover
    have hr2' : r2 = ⟨"r2", "R2", [], [],
        ⟨"c2", "J", [Pattern.mk (some "S") none [Pattern.mk none (some "m2") []],
                     Pattern.mk none (some "m3") []]⟩, (0, 0)⟩ := by
      simpa using hr2
    subst hr2'
    have := hover 0 (by decide)
    cases this

/-- **C4 (amended).**  `analyzeSyntaxDirected` reports a judgment
syntax-directed iff no pair of its rules can overlap at **any** conclusion
argument position (each pair must be pairwise disjoint at every position, not
merely at one); overlap of two patterns is conservatively true unless at some
position they carry constructor patterns with different constructor ids, and a
meta-variable pattern overlaps everything.  In particular a pair of rules
disjoint in one position but overlapping in another still renders the judgment
non-syntax-directed. -/
theorem C4_syntax_directed_iff (judgment : Judgment) (rules : List InferenceRule)
    (cs : JsMap Constructor) :
    (analyzesSyntaxDirected judgment rules cs).isSyntaxDirected = true ↔
      List.Pairwise (fun r1 r2 => ∀ pos < r1.conclusion.args.length,
          patternsCanOverlap (r1.conclusion.args.getD pos (Pattern.mk none none []))
            (r2.conclusion.args.getD pos (Pattern.mk none none [])) = false)
        (rules.filter (fun r => r.conclusion.judgmentId = judgment.id)) := by
  show ((collectOverlaps _).length == 0) = true ↔ _
  rw [beq_iff_eq, List.length_eq_zero, collectOverlaps_eq_nil_iff]
  constructor
  · intro h
    exact h.imp (fun hab => (overlapsBetween_eq_nil_iff _ _).mp hab)
  · intro h
    exact h.imp (fun hab => (overlapsBetween_eq_nil_iff _ _).mpr hab)

/-! ## Backward derivation search (src/unnamed/part_002, `buildDerivation`)

The source bounds the search by depth (`depth > 10` fails, premises searched
at `depth + 1`); here the bound is an explicit fuel `11 - depth`, so the
top-level call (`depth = 0`) runs at fuel 11 and fuel 0 is the exceeded bound.
The inner loop matching the input terms against the conclusion patterns and
merging bindings is textually the same merge loop as `matchPattern`'s
argument loop, so `matchPatternArgs` is reused for it.
-/

/-- The conclusion of a derivation node. -/
structure DerivationConclusion where
  judgmentId : String
  terms : List Term

/-- A derivation tree. -/
inductive Derivation where
  | mk (ruleName : String) (ruleId : String) (conclusion : DerivationConclusion)
       (premises : List Derivation)

/-- `getRulesForJudgment`: the complete rules concluding the judgment, in
registry (insertion) order. -/
def getRulesForJudgment (rules : List InferenceRule) (judgmentId : String) :
    List InferenceRule :=
  rules.filter (fun r => r.conclusion.judgmentId = judgmentId && isRuleComplete r)

/-- The source's premise loop: substitute each premise's argument patterns
under the bindings, then recursively derive it; the recursive search for the
next depth is passed in as `derive`. -/
def derivePremisesWith (derive : String → List Term → Option Derivation) :
    List JudgmentInstance → JsMap Term → Option (List Derivation)
  | [], _ => some []
  | prem :: rest, bindings =>
    match substitutePatternArgs prem.args bindings with
    | none => none
    | some premTerms =>
      match derive prem.judgmentId premTerms with
      | none => none
      | some d =>
        match derivePremisesWith derive rest bindings with
        | none => none
        | some ds => some (d :: ds)

/-- The source's rule loop: first rule whose conclusion matches (with merged
bindings) and whose premises all derive wins. -/
def tryRulesWith (derive : String → List Term → Option Derivation)
    (judgmentId : String) (terms : List Term) :
    List InferenceRule → Option Derivation
  | [] => none
  | rule :: rest =>
    if rule.conclusion.args.length ≠ terms.length then
      tryRulesWith derive judgmentId terms rest
    else
      match matchPatternArgs terms rule.conclusion.args [] with
      | none => tryRulesWith derive judgmentId terms rest
      | some bindings =>
        match derivePremisesWith derive rule.premises bindings with
        | none => tryRulesWith derive judgmentId terms rest
        | some ds => some (Derivation.mk rule.name rule.id ⟨judgmentId, terms⟩ ds)

/-- `buildDerivation(judgmentId, terms, depth)` with fuel `11 - depth`. -/
def buildDerivation (rules : List InferenceRule) :
    Nat → String → List Term → Option Derivation
  | 0, _, _ => none
  | fuel + 1, judgmentId, terms =>
    tryRulesWith (fun j ts => buildDerivation rules fuel j ts) judgmentId terms
      (getRulesForJudgment rules judgmentId)

/-! ### The Peano even/odd example metamodel

The registry state produced by `initializeWithExamples` (store/useStore.ts):
sort `ℕ` with constructors `Z` and `S(n : ℕ)`, judgments `even` and `odd`,
meta-variable `n`, and rules (in insertion order) `E-Zero : ⊢ Z even`,
`E-Succ : n odd ⟹ S(n) even`, `O-Succ : n even ⟹ S(n) odd`.  Identifiers,
opaque UUIDs at runtime, are written as readable strings.
-/

/-- `Z` as a term. -/
def peanoZ : Term := Term.mk "ctor-Z" [] false none

/-- `S t` as a term. -/
def peanoS (t : Term) : Term := Term.mk "ctor-S" [t] false none

/-- The meta-variable pattern `n`. -/
def peanoMvPat : Pattern := Pattern.mk none (some "mv-n") []

/-- The rule registry of the example metamodel, in insertion order. -/
def peanoRules : List InferenceRule :=
  [⟨"rule-E-Zero", "E-Zero", [], [],
      ⟨"concl-ez", "judg-even", [Pattern.mk (some "ctor-Z") none []]⟩, (50, 50)⟩,
   ⟨"rule-E-Succ", "E-Succ",
      [⟨"prem-es", "judg-odd", [peanoMvPat]⟩], [],
      ⟨"concl-es", "judg-even", [Pattern.mk (some "ctor-S") none [peanoMvPat]]⟩, (300, 50)⟩,
   ⟨"rule-O-Succ", "O-Succ",
      [⟨"prem-os", "judg-even", [peanoMvPat]⟩], [],
      ⟨"concl-os", "judg-odd", [Pattern.mk (some "ctor-S") none [peanoMvPat]]⟩, (50, 50)⟩]

/-- **C7.**  On the Peano even/odd metamodel, backward derivation (depth 0,
i.e. fuel 11) of `even` on `S(S(Z))` succeeds with the tree
`E-Succ(O-Succ(E-Zero))` — children in premise order — and derivation of
`even` on `S(Z)` fails. -/
theorem C7_peano_even_odd_derivation :
    buildDerivation peanoRules 11 "judg-even" [peanoS (peanoS peanoZ)] =
      some (Derivation.mk "E-Succ" "rule-E-Succ"
        ⟨"judg-even", [peanoS (peanoS peanoZ)]⟩
        [Derivation.mk "O-Succ" "rule-O-Succ" ⟨"judg-odd", [peanoS peanoZ]⟩
          [Derivation.mk "E-Zero" "rule-E-Zero" ⟨"judg-even", [peanoZ]⟩ []]]) ∧
    buildDerivation peanoRules 11 "judg-even" [peanoS peanoZ] = none :=
  ⟨rfl, rfl⟩

/-! ## Recursive functions and the termination checker (App.tsx) -/

/-- A non-principal function argument. -/
structure FuncArg where
  name : String
  sortId : String
  isPrincipal : Bool

/-- Function return types. -/
inductive FuncReturnType where
  | int
  | set (elementSortId : String)
  | inductive_ (sortId : String)

/-- One case of a function definition, for one constructor of the principal
sort.  `boundVars` names the constructor's arguments in order (the source
allows missing/empty names, which bind nothing). -/
structure FuncCase where
  constructorId : String
  boundVars : List String
  body : FuncExpr

/-- A recursive function definition, including the stored derived termination
attributes. -/
structure RecursiveFunc where
  id : String
  name : String
  inputSortId : String
  extraArgs : List FuncArg
  returnType : FuncReturnType
  cases : List FuncCase
  terminates : Bool
  terminationError : Option String

/-- The result record of `checkTermination`. -/
structure TerminationResult where
  terminates : Bool
  error : Option String

mutual

/-- `checkExprTermination`: the first structural-recursion violation in a case
body, if any.  Self-calls must take a structural variable (for `callMulti`,
in the principal position); calls to other functions only have their
arguments checked.  (Quotes around variable names in the source's messages
are elided.) -/
def checkExprTermination (selfId : String) (structuralVars : List String)
    (allFunctions : JsMap RecursiveFunc) : FuncExpr → Option String
  | .int _ => none
  | .empty => none
  | .var _ => none
  | .singleton e => checkExprTermination selfId structuralVars allFunctions e
  | .call funcId arg =>
    if funcId = selfId then
      match arg with
      | .var nm =>
        if structuralVars.contains nm then none
        else some s!"Recursive call on {nm} which is not a structural subterm"
      | _ => some "Recursive call must be on a variable, not a complex expression"
    else checkExprTermination selfId structuralVars allFunctions arg
  | .callMulti funcId args =>
    match jsGet allFunctions funcId with
    | none => none
    | some _ =>
      if funcId = selfId then
        match args with
        | [] => some "Recursive call has no arguments"
        | principal :: rest =>
          match principal with
          | .var nm =>
            if structuralVars.contains nm then
              checkExprTerminationList selfId structuralVars allFunctions rest
            else some s!"Recursive call on {nm} which is not a structural subterm"
          | _ =>
            some "Recursive calls principal argument must be a variable, not a complex expression"
      else checkExprTerminationList selfId structuralVars allFunctions args
  | .construct _ args => checkExprTerminationList selfId structuralVars allFunctions args
  | .add l r | .sub l r | .mul l r | .max l r | .min l r
  | .union l r | .intersect l r | .diff l r =>
    match checkExprTermination selfId structuralVars allFunctions l with
    | some err => some err
    | none => checkExprTermination selfId structuralVars allFunctions r
  | .if_ c t e =>
    match checkPredicateTermination selfId structuralVars allFunctions c with
    | some err => some err
    | none =>
      match checkExprTermination selfId structuralVars allFunctions t with
      | some err => some err
      | none => checkExprTermination selfId structuralVars allFunctions e

/-- First error over a list of argument expressions. -/
def checkExprTerminationList (selfId : String) (structuralVars : List String)
    (allFunctions : JsMap RecursiveFunc) : List FuncExpr → Option String
  | [] => none
  | e :: rest =>
    match checkExprTermination selfId structuralVars allFunctions e with
    | some err => some err
    | none => checkExprTerminationList selfId structuralVars allFunctions rest

/-- `checkPredicateTermination`. -/
def checkPredicateTermination (selfId : String) (structuralVars : List String)
    (allFunctions : JsMap RecursiveFunc) : FuncPredicate → Option String
  | .eq l r | .neq l r | .lt l r | .leq l r | .gt l r | .geq l r
  | .atomEq l r | .atomNeq l r | .subset l r =>
    match checkExprTermination selfId structuralVars allFunctions l with
    | some err => some err
    | none => checkExprTermination selfId structuralVars allFunctions r
  | .in_ element set =>
    match checkExprTermination selfId structuralVars allFunctions element with
    | some err => some err
    | none => checkExprTermination selfId structuralVars allFunctions set
  | .isEmpty set => checkExprTermination selfId structuralVars allFunctions set
  | .and l r | .or l r =>
    match checkPredicateTermination selfId structuralVars allFunctions l with
    | some err => some err
    | none => checkPredicateTermination selfId structuralVars allFunctions r
  | .not p => checkPredicateTermination selfId structuralVars allFunctions p

end

/-- The structural variables of a case: bound variables (with a nonempty
name, by JS truthiness) whose constructor argument has the function's
principal sort. -/
def structuralVarsOf (func : RecursiveFunc) (constructor : Constructor)
    (funcCase : FuncCase) : List String :=
  constructor.args.enum.filterMap fun (i, arg) =>
    if arg.sortId = func.inputSortId ∧ funcCase.boundVars.getD i "" ≠ "" then
      some (funcCase.boundVars.getD i "")
    else none

/-- `checkTermination`: check every case, returning the first failure. -/
def checkTermination (func : RecursiveFunc) (constructors : JsMap Constructor)
    (allFunctions : JsMap RecursiveFunc) : TerminationResult :=
  go func.cases
where
  go : List FuncCase → TerminationResult
    | [] => ⟨true, none⟩
    | funcCase :: rest =>
      match jsGet constructors funcCase.constructorId with
      | none => ⟨false, some "Unknown constructor in case"⟩
      | some constructor =>
        match checkExprTermination func.id (structuralVarsOf func constructor funcCase)
            allFunctions funcCase.body with
        | some error => ⟨false, some s!"In case {constructor.name}: {error}"⟩
        | none => go rest

/-! ## Function evaluation (App.tsx `evaluateFunc` and friends)

`FuncValue` is `number | Set<string> | Term`; a JS `Set<string>` is a
duplicate-free list in insertion order.  Evaluation results are
`Option (Option FuncValue)`: the outer `none` means the explicit fuel ran out
(the source has no such bound and simply recurses), `some none` is the JS
`null` ("undefined state"), and `some (some v)` is a proper value.

The source's `evaluateExpr`/`evaluatePredicate` recurse structurally over the
expression and re-enter the evaluator only through `evaluateFunc` /
`evaluateFuncMulti`; they are embedded below as functions parameterized by
those two entry points (`evalFn` / `evalMultiFn`), which
`evaluateFuncMulti` instantiates with itself at one fuel less.
-/

/-- A function evaluation value. -/
inductive FuncValue where
  | int (n : Int)
  | set (s : List String)
  | term (t : Term)

/-- `new Set([...l, ...r])` for duplicate-free `l`, `r`. -/
def jsSetUnion (l r : List String) : List String :=
  l ++ r.filter (fun x => ¬ l.contains x)

/-- `[...l].filter(x => r.has(x))`. -/
def jsSetIntersect (l r : List String) : List String :=
  l.filter (fun x => r.contains x)

/-- `[...l].filter(x => !r.has(x))`. -/
def jsSetDiff (l r : List String) : List String :=
  l.filter (fun x => ¬ r.contains x)

/-- Set equality: same size and mutual membership. -/
def jsSetEq (l r : List String) : Bool :=
  l.length == r.length && l.all (fun x => r.contains x)

/-- JS string truthiness for optional names: empty or absent is falsy. -/
def truthyName : Option String → Option String
  | some s => if s = "" then none else some s
  | none => none

/-- The `===` comparison of two already-evaluated `FuncValue`s, as performed
by the `eq` predicate after its `null` and `Set` checks: numbers compare by
value; a `Set` or `Term` operand can only ever be a freshly allocated object
here, so `===` against it is reference inequality. -/
def funcValueEq : FuncValue → FuncValue → Bool
  | .set s1, .set s2 => jsSetEq s1 s2
  | .int a, .int b => a == b
  | _, _ => false

/-- The environment extension for a `callMulti`: for each declared extra
argument (up to the provided argument count), a variable-reference argument
that resolves in the caller's environment is bound under the callee's
parameter name; other shapes are skipped.  Note the JS code starts from a
copy of the caller's whole environment. -/
def buildExtraEnv (env : JsMap Term) : List FuncArg → List FuncExpr → JsMap Term
  | _, [] => env
  | [], _ => env
  | argDef :: defs, argExpr :: exprs =>
    let env' :=
      match argExpr with
      | .var nm =>
        match jsGet env nm with
        | some t => jsSet env argDef.name t
        | none => env
      | _ => env
    buildExtraEnv env' defs exprs

/-- Binding of a case's `boundVars` to the principal term's arguments:
positionally, skipping empty names and missing arguments. -/
def bindBoundVars (env : JsMap Term) : List String → List Term → JsMap Term
  | [], _ => env
  | _, [] => env
  | varName :: names, t :: ts =>
    let env' := if varName = "" then env else jsSet env varName t
    bindBoundVars env' names ts

mutual

/-- `evaluateExpr`, parameterized by the function-entry points. -/
def evaluateExprWith
    (evalFn : RecursiveFunc → Term → Option (Option FuncValue))
    (evalMultiFn : RecursiveFunc → Term → JsMap Term → Option (Option FuncValue))
    (functions : JsMap RecursiveFunc) (constructors : JsMap Constructor) :
    FuncExpr → JsMap Term → Option (Option FuncValue)
  | .int v, _ => some (some (.int v))
  | .empty, _ => some (some (.set []))
  | .var _, _ => some none
  | .singleton element, env =>
    match evaluateExprWith evalFn evalMultiFn functions constructors element env with
    | none => none
    | some _ =>
      -- a FuncValue is never a bare string, so the source's string branch is
      -- unreachable; only the atom-variable fallback can produce a set
      match element with
      | .var nm =>
        match jsGet env nm with
        | some t =>
          if t.isVariable then
            match truthyName t.variableName with
            | some vn => some (some (.set [vn]))
            | none => some none
          else some none
        | none => some none
      | _ => some none
  | .call funcId arg, env =>
    match jsGet functions funcId with
    | none => some none
    | some func =>
      match arg with
      | .var nm =>
        match jsGet env nm with
        | none => some none
        | some argTerm => evalFn func argTerm
      | _ => some none
  | .callMulti funcId args, env =>
    match jsGet functions funcId with
    | none => some none
    | some func =>
      match args with
      | [] => some none
      | principalArgExpr :: rest =>
        match principalArgExpr with
        | .var nm =>
          match jsGet env nm with
          | none => some none
          | some principalTerm =>
            evalMultiFn func principalTerm (buildExtraEnv env func.extraArgs rest)
        | _ => some none
  | .construct constructorId args, env =>
    match jsGet constructors constructorId with
    | none => some none
    | some _ =>
      match evaluateConstructArgs evalFn evalMultiFn functions constructors args env with
      | none => none
      | some none => some none
      | some (some evaluatedArgs) =>
        some (some (.term (Term.mk constructorId evaluatedArgs false none)))
  | .add l r, env =>
    match evaluateExprWith evalFn evalMultiFn functions constructors l env with
    | none => none
    | some lv =>
      match evaluateExprWith evalFn evalMultiFn functions constructors r env with
      | none => none
      | some rv =>
        match lv, rv with
        | some (.int a), some (.int b) => some (some (.int (a + b)))
        | _, _ => some none
  | .sub l r, env =>
    match evaluateExprWith evalFn evalMultiFn functions constructors l env with
    | none => none
    | some lv =>
      match evaluateExprWith evalFn evalMultiFn functions constructors r env with
      | none => none
      | some rv =>
        match lv, rv with
        | some (.int a), some (.int b) => some (some (.int (a - b)))
        | _, _ => some none
  | .mul l r, env =>
    match evaluateExprWith evalFn evalMultiFn functions constructors l env with
    | none => none
    | some lv =>
      match evaluateExprWith evalFn evalMultiFn functions constructors r env with
      | none => none
      | some rv =>
        match lv, rv with
        | some (.int a), some (.int b) => some (some (.int (a * b)))
        | _, _ => some none
  | .max l r, env =>
    match evaluateExprWith evalFn evalMultiFn functions constructors l env with
    | none => none
    | some lv =>
      match evaluateExprWith evalFn evalMultiFn functions constructors r env with
      | none => none
      | some rv =>
        match lv, rv with
        | some (.int a), some (.int b) => some (some (.int (Max.max a b)))
        | _, _ => some none
  | .min l r, env =>
    match evaluateExprWith evalFn evalMultiFn functions constructors l env with
    | none => none
    | some lv =>
      match evaluateExprWith evalFn evalMultiFn functions constructors r env with
      | none => none
      | some rv =>
        match lv, rv with
        | some (.int a), some (.int b) => some (some (.int (Min.min a b)))
        | _, _ => some none
  | .union l r, env =>
    match evaluateExprWith evalFn evalMultiFn functions constructors l env with
    | none => none
    | some lv =>
      match evaluateExprWith evalFn evalMultiFn functions constructors r env with
      | none => none
      | some rv =>
        match lv, rv with
        | some (.set a), some (.set b) => some (some (.set (jsSetUnion a b)))
        | _, _ => some none
  | .intersect l r, env =>
    match evaluateExprWith evalFn evalMultiFn functions constructors l env with
    | none => none
    | some lv =>
      match evaluateExprWith evalFn evalMultiFn functions constructors r env with
      | none => none
      | some rv =>
        match lv, rv with
        | some (.set a), some (.set b) => some (some (.set (jsSetIntersect a b)))
        | _, _ => some none
  | .diff l r, env =>
    match evaluateExprWith evalFn evalMultiFn functions constructors l env with
    | none => none
    | some lv =>
      match evaluateExprWith evalFn evalMultiFn functions constructors r env with
      | none => none
      | some rv =>
        match lv, rv with
        | some (.set a), some (.set b) => some (some (.set (jsSetDiff a b)))
        | _, _ => some none
  | .if_ cond thenE elseE, env =>
    match evaluatePredicateWith evalFn evalMultiFn functions constructors cond env with
    | none => none
    | some none => some none
    | some (some condResult) =>
      if condResult then
        evaluateExprWith evalFn evalMultiFn functions constructors thenE env
      else
        evaluateExprWith evalFn evalMultiFn functions constructors elseE env

/-- The `construct` argument loop: a `Term` value is used directly, a
variable reference falls back to the environment, anything else is `null`. -/
def evaluateConstructArgs
    (evalFn : RecursiveFunc → Term → Option (Option FuncValue))
    (evalMultiFn : RecursiveFunc → Term → JsMap Term → Option (Option FuncValue))
    (functions : JsMap RecursiveFunc) (constructors : JsMap Constructor) :
    List FuncExpr → JsMap Term → Option (Option (List Term))
  | [], _ => some (some [])
  | argExpr :: rest, env =>
    match evaluateExprWith evalFn evalMultiFn functions constructors argExpr env with
    | none => none
    | some argVal =>
      let pushed : Option Term :=
        match argVal with
        | some (.term t) => some t
        | _ =>
          match argExpr with
          | .var nm => jsGet env nm
          | _ => none
      match pushed with
      | none => some none
      | some t =>
        match evaluateConstructArgs evalFn evalMultiFn functions constructors rest env with
        | none => none
        | some none => some none
        | some (some ts) => some (some (t :: ts))

/-- `evaluatePredicate`, parameterized like `evaluateExprWith`.  The `neq`
case in the source re-evaluates an `eq` node built from the same operands;
since evaluation is a pure function of the same arguments, this is embedded
as the same computation negated. -/
def evaluatePredicateWith
    (evalFn : RecursiveFunc → Term → Option (Option FuncValue))
    (evalMultiFn : RecursiveFunc → Term → JsMap Term → Option (Option FuncValue))
    (functions : JsMap RecursiveFunc) (constructors : JsMap Constructor) :
    FuncPredicate → JsMap Term → Option (Option Bool)
  | .eq l r, env =>
    match evaluateExprWith evalFn evalMultiFn functions constructors l env with
    | none => none
    | some lv =>
      match evaluateExprWith evalFn evalMultiFn functions constructors r env with
      | none => none
      | some rv =>
        match lv, rv with
        | some a, some b => some (some (funcValueEq a b))
        | _, _ => some none
  | .neq l r, env =>
    match evaluateExprWith evalFn evalMultiFn functions constructors l env with
    | none => none
    | some lv =>
      match evaluateExprWith evalFn evalMultiFn functions constructors r env with
      | none => none
      | some rv =>
        match lv, rv with
        | some a, some b => some (some (! funcValueEq a b))
        | _, _ => some none
  | .lt l r, env =>
    match evaluateExprWith evalFn evalMultiFn functions constructors l env with
    | none => none
    | some lv =>
      match evaluateExprWith evalFn evalMultiFn functions constructors r env with
      | none => none
      | some rv =>
        match lv, rv with
        | some (.int a), some (.int b) => some (some (decide (a < b)))
        | _, _ => some none
  | .leq l r, env =>
    match evaluateExprWith evalFn evalMultiFn functions constructors l env with
    | none => none
    | some lv =>
      match evaluateExprWith evalFn evalMultiFn functions constructors r env with
      | none => none
      | some rv =>
        match lv, rv with
        | some (.int a), some (.int b) => some (some (decide (a ≤ b)))
        | _, _ => some none
  | .gt l r, env =>
    match evaluateExprWith evalFn evalMultiFn functions constructors l env with
    | none => none
    | some lv =>
      match evaluateExprWith evalFn evalMultiFn functions constructors r env with
      | none => none
      | some rv =>
        match lv, rv with
        | some (.int a), some (.int b) => some (some (decide (b < a)))
        | _, _ => some none
  | .geq l r, env =>
    match evaluateExprWith evalFn evalMultiFn functions constructors l env with
    | none => none
    | some lv =>
      match evaluateExprWith evalFn evalMultiFn functions constructors r env with
      | none => none
      | some rv =>
        match lv, rv with
        | some (.int a), some (.int b) => some (some (decide (b ≤ a)))
        | _, _ => some none
  | .atomEq l r, env =>
    match l, r with
    | .var lnm, .var rnm =>
      match jsGet env lnm, jsGet env rnm with
      | some lt, some rt =>
        if lt.isVariable && rt.isVariable then
          some (some (lt.variableName == rt.variableName))
        else some none
      | _, _ => some none
    | _, _ => some none
  | .atomNeq l r, env =>
    match l, r with
    | .var lnm, .var rnm =>
      match jsGet env lnm, jsGet env rnm with
      | some lt, some rt =>
        if lt.isVariable && rt.isVariable then
          some (some (lt.variableName != rt.variableName))
        else some none
      | _, _ => some none
    | _, _ => some none
  | .in_ element set, env =>
    match evaluateExprWith evalFn evalMultiFn functions constructors set env with
    | none => none
    | some sv =>
      match sv with
      | some (.set s) =>
        match element with
        | .var nm =>
          match jsGet env nm with
          | some t =>
            if t.isVariable then
              match truthyName t.variableName with
              | some vn => some (some (s.contains vn))
              | none => some none
            else some none
          | none => some none
        | _ => some none
      | _ => some none
  | .subset l r, env =>
    match evaluateExprWith evalFn evalMultiFn functions constructors l env with
    | none => none
    | some lv =>
      match evaluateExprWith evalFn evalMultiFn functions constructors r env with
      | none => none
      | some rv =>
        match lv, rv with
        | some (.set a), some (.set b) => some (some (a.all (fun x => b.contains x)))
        | _, _ => some none
  | .isEmpty set, env =>
    match evaluateExprWith evalFn evalMultiFn functions constructors set env with
    | none => none
    | some sv =>
      match sv with
      | some (.set s) => some (some (s.length == 0))
      | _ => some none
  | .and l r, env =>
    match evaluatePredicateWith evalFn evalMultiFn functions constructors l env with
    | none => none
    | some lv =>
      match evaluatePredicateWith evalFn evalMultiFn functions constructors r env with
      | none => none
      | some rv =>
        match lv, rv with
        | some a, some b => some (some (a && b))
        | _, _ => some none
  | .or l r, env =>
    match evaluatePredicateWith evalFn evalMultiFn functions constructors l env with
    | none => none
    | some lv =>
      match evaluatePredicateWith evalFn evalMultiFn functions constructors r env with
      | none => none
      | some rv =>
        match lv, rv with
        | some a, some b => some (some (a || b))
        | _, _ => some none
  | .not p, env =>
    match evaluatePredicateWith evalFn evalMultiFn functions constructors p env with
    | none => none
    | some none => some none
    | some (some b) => some (some (! b))

end

/-- `evaluateFuncMulti(func, principalTerm, extraEnv)`: reject atom principal
terms, select the case by constructor id, require the constructor to exist,
extend a copy of `extraEnv` with the pattern-bound subterms, and evaluate the
body.  Each entry into the evaluator consumes one unit of fuel. -/
def evaluateFuncMulti (functions : JsMap RecursiveFunc)
    (constructors : JsMap Constructor) :
    Nat → RecursiveFunc → Term → JsMap Term → Option (Option FuncValue)
  | 0, _, _, _ => none
  | fuel + 1, func, principalTerm, extraEnv =>
    if principalTerm.isVariable && (truthyName principalTerm.variableName).isSome then
      some none
    else
      match func.cases.find? (fun c => c.constructorId = principalTerm.constructorId) with
      | none => some none
      | some matchingCase =>
        match jsGet constructors principalTerm.constructorId with
        | none => some none
        | some _ =>
          evaluateExprWith
            (fun g t => evaluateFuncMulti functions constructors fuel g t [])
            (fun g t e => evaluateFuncMulti functions constructors fuel g t e)
            functions constructors matchingCase.body
            (bindBoundVars extraEnv matchingCase.boundVars principalTerm.args)
termination_by structural fuel => fuel

/-- `evaluateFunc(func, term)`: in the source this duplicates
`evaluateFuncMulti`'s body with a freshly created empty environment (the
guards, case selection and binding are identical); it is embedded
accordingly. -/
def evaluateFunc (functions : JsMap RecursiveFunc) (constructors : JsMap Constructor)
    (fuel : Nat) (func : RecursiveFunc) (term : Term) : Option (Option FuncValue) :=
  evaluateFuncMulti functions constructors fuel func term []

/-! ### C2: the termination checker does not ensure termination

`checkTermination` only constrains *self*-calls.  A `callMulti` to another
function copies the caller's entire environment (`new Map(termEnv)`), so
a variable bound to a non-decreasing term survives into the callee; two
functions calling each other through such a leaked variable loop forever on a
principal term that never shrinks, although every function involved passes
the checker.  Concretely, over Peano numerals:

* `f`: `f(Z) = 0`, `f(S m) = g(m)`  (a `callMulti` to `g` with argument `m`);
* `g`: `g(Z) = 0`, `g(S k) = h(m)`  (`m` resolves via the leaked caller env);
* `h`: `h(Z) = 0`, `h(S j) = g(m)`.

Evaluating `f` on `S(S(Z))` reaches `g` on `S(Z)` with `m ↦ S(Z)` in the
environment; `g` and `h` then bounce `S(Z)` between each other forever, the
environment stabilising at `{m ↦ S(Z), k ↦ Z, j ↦ Z}`.
-/

/-- The constructor registry for the divergence example (Peano `Z`, `S`). -/
def c2Ctors : JsMap Constructor :=
  [("ctor-Z", ⟨"ctor-Z", "sort-nat", "Z", [], true⟩),
   ("ctor-S", ⟨"ctor-S", "sort-nat", "S", [⟨"arg-S-0", "sort-nat", some "n", false, []⟩], false⟩)]

/-- `f(Z) = 0`, `f(S m) = g(m)`. -/
def c2f : RecursiveFunc :=
  ⟨"func-f", "f", "sort-nat", [], .int,
   [⟨"ctor-Z", [], .int 0⟩, ⟨"ctor-S", ["m"], .callMulti "func-g" [.var "m"]⟩], true, none⟩

/-- `g(Z) = 0`, `g(S k) = h(m)` — `m` is free in the case, resolved through
the environment leaked by the caller's `callMulti`. -/
def c2g : RecursiveFunc :=
  ⟨"func-g", "g", "sort-nat", [], .int,
   [⟨"ctor-Z", [], .int 0⟩, ⟨"ctor-S", ["k"], .callMulti "func-h" [.var "m"]⟩], true, none⟩

/-- `h(Z) = 0`, `h(S j) = g(m)`. -/
def c2h : RecursiveFunc :=
  ⟨"func-h", "h", "sort-nat", [], .int,
   [⟨"ctor-Z", [], .int 0⟩, ⟨"ctor-S", ["j"], .callMulti "func-g" [.var "m"]⟩], true, none⟩

/-- The function registry for the divergence example. -/
def c2Funcs : JsMap RecursiveFunc := [("func-f", c2f), ("func-g", c2g), ("func-h", c2h)]

/-- The stable looping environment. -/
def c2E : JsMap Term := [("m", peanoS peanoZ), ("k", peanoZ), ("j", peanoZ)]

theorem c2_cycle (n : Nat) :
    evaluateFuncMulti c2Funcs c2Ctors n c2g (peanoS peanoZ) c2E = none ∧
    evaluateFuncMulti c2Funcs c2Ctors n c2h (peanoS peanoZ) c2E = none := by
  induction n with
  | zero => exact ⟨rfl, rfl⟩
  | succ m ih => exact ⟨ih.2, ih.1⟩

/-- **C2, code bug.**  `checkTermination` accepts `f`, `g` and `h` above
(`terminates = true` for each), yet evaluating `f` on the closed ground term
`S(S(Z))` of its principal sort never terminates: for every fuel bound the
evaluator is still running (`none`), contradicting the claimed bound of
`size(t)` calls per recursive call site. -/
theorem C2_terminating_function_diverges :
    (checkTermination c2f c2Ctors c2Funcs).terminates = true ∧
    (checkTermination c2g c2Ctors c2Funcs).terminates = true ∧
    (checkTermination c2h c2Ctors c2Funcs).terminates = true ∧
    ∀ fuel, evaluateFunc c2Funcs c2Ctors fuel c2f (peanoS (peanoS peanoZ)) = none := by
  refine ⟨rfl, rfl, rfl, ?_⟩
  intro fuel
  match fuel with
  | 0 => rfl
  | 1 => rfl
  | 2 => rfl
  | (m + 3) => exact (c2_cycle m).1

/-! ### C10: `null` results of `evaluateFunc` -/

/-- **C10.**  `evaluateFunc` returns `null` (`some none`, the evaluator's
"undefined") whenever (1) the principal term is an atom occurrence, or
(2) no case matches its constructor id; moreover (3) a body expression that
is a bare variable reference always evaluates to `null` even when the
variable is bound in the environment, so (4) for every function whose case
body for some constructor is just a bound variable, `evaluateFunc` is `null`
on every term headed by that constructor. -/
theorem C10_evaluateFunc_null_cases :
    (∀ (functions : JsMap RecursiveFunc) (constructors : JsMap Constructor)
        (fuel : Nat) (f : RecursiveFunc) (t : Term),
      t.isVariable = true → (truthyName t.variableName).isSome = true →
      evaluateFunc functions constructors (fuel + 1) f t = some none) ∧
    (∀ (functions : JsMap RecursiveFunc) (constructors : JsMap Constructor)
        (fuel : Nat) (f : RecursiveFunc) (t : Term),
      f.cases.find? (fun c => c.constructorId = t.constructorId) = none →
      evaluateFunc functions constructors (fuel + 1) f t = some none) ∧
    (∀ (evalFn : RecursiveFunc → Term → Option (Option FuncValue))
        (evalMultiFn : RecursiveFunc → Term → JsMap Term → Option (Option FuncValue))
        (functions : JsMap RecursiveFunc) (constructors : JsMap Constructor)
        (x : String) (env : JsMap Term),
      evaluateExprWith evalFn evalMultiFn functions constructors (.var x) env = some none) ∧
    (∀ (functions : JsMap RecursiveFunc) (constructors : JsMap Constructor)
        (fuel : Nat) (f : RecursiveFunc) (t : Term) (c : FuncCase) (x : String),
      t.isVariable = false →
      f.cases.find? (fun c => c.constructorId = t.constructorId) = some c →
      c.body = .var x →
      evaluateFunc functions constructors (fuel + 1) f t = some none) := by
  refine ⟨?_, ?_, ?_, ?_⟩
  · intro fns cs fuel f t h1 h2
    simp [evaluateFunc, evaluateFuncMulti, h1, h2]
  · intro fns cs fuel f t hfind
    simp only [evaluateFunc, evaluateFuncMulti]
    split
    · rfl
    · rw [hfind]
  · intro evalFn evalMultiFn fns cs x env
    rfl
  · intro fns cs fuel f t c x hvar hfind hbody
    simp only [evaluateFunc, evaluateFuncMulti, hvar, Bool.false_and, Bool.false_eq_true,
      if_false, hfind]
    cases hctor : jsGet cs t.constructorId with
    | none => rfl
    | some ctor => rw [hbody]; rfl

/-- **C10, witness.**  The three hypothesis-bearing parts at concrete inputs:
an atom term `x₁`; a function with no cases; and a function whose `W`-case
body is the bound variable `y`, applied to the term `W`. -/
theorem C10_witness :
    evaluateFunc [] [] 1
      ⟨"func-w", "w", "sort-nat", [], .int, [], true, none⟩
      (Term.mk "" [] true (some "x₁")) = some none ∧
    evaluateFunc [] [] 1
      ⟨"func-w", "w", "sort-nat", [], .int, [], true, none⟩
      (Term.mk "ctor-W" [] false none) = some none ∧
    evaluateFunc [] [] 1
      ⟨"func-w", "w", "sort-nat", [], .int,
        [⟨"ctor-W", ["y"], .var "y"⟩], true, none⟩
      (Term.mk "ctor-W" [Term.mk "ctor-V" [] false none] false none) = some none :=
  ⟨C10_evaluateFunc_null_cases.1 [] [] 0 _ _ rfl rfl,
   C10_evaluateFunc_null_cases.2.1 [] [] 0 _ _ rfl,
   C10_evaluateFunc_null_cases.2.2.2 [] [] 0 _ _ ⟨"ctor-W", ["y"], .var "y"⟩ "y" rfl rfl rfl⟩

/-! ## The formula kernel (App.tsx)

First-order formulas and formula expressions, substitution, syntactic
equality, the arithmetic simplifier, and the bounded linear-arithmetic
decider.
-/

/-- `FormulaExpr`: expressions inside formulas. -/
inductive FormulaExpr where
  | var (name : String)
  | constructor (constructorId : String) (args : List FormulaExpr)
  | funcApp (funcId : String) (arg : FormulaExpr)
  | int (value : Int)
  | emptySet
  | add (left right : FormulaExpr)
  | sub (left right : FormulaExpr)
  | mul (left right : FormulaExpr)
  | max (left right : FormulaExpr)
  | min (left right : FormulaExpr)

/-- `Formula`: first-order formulas. -/
inductive Formula where
  | forall_ (varName : String) (sortId : String) (body : Formula)
  | exists_ (varName : String) (sortId : String) (body : Formula)
  | implies (left right : Formula)
  | and (left right : Formula)
  | or (left right : Formula)
  | not (body : Formula)
  | judgment (judgmentId : String) (args : List FormulaExpr)
  | termEq (left right : FormulaExpr)
  | termNeq (left right : FormulaExpr)
  | funcEq (funcId : String) (arg value : FormulaExpr)
  | funcLeq (funcId : String) (arg value : FormulaExpr)
  | funcLt (funcId : String) (arg value : FormulaExpr)
  | numEq (left right : FormulaExpr)
  | numNeq (left right : FormulaExpr)
  | numLeq (left right : FormulaExpr)
  | numLt (left right : FormulaExpr)
  | numGeq (left right : FormulaExpr)
  | numGt (left right : FormulaExpr)
  | setEmpty (funcId : String) (arg : FormulaExpr)
  | setIn (element : FormulaExpr) (funcId : String) (arg : FormulaExpr)
  | true_
  | false_

mutual

/-- `substituteFormulaExpr(expr, varName, replacement)`. -/
def substituteFormulaExpr (expr : FormulaExpr) (varName : String)
    (replacement : FormulaExpr) : FormulaExpr :=
  match expr with
  | .var nm => if nm = varName then replacement else expr
  | .constructor c args =>
    .constructor c (substituteFormulaExprList args varName replacement)
  | .funcApp f a => .funcApp f (substituteFormulaExpr a varName replacement)
  | .add l r => .add (substituteFormulaExpr l varName replacement)
      (substituteFormulaExpr r varName replacement)
  | .sub l r => .sub (substituteFormulaExpr l varName replacement)
      (substituteFormulaExpr r varName replacement)
  | .mul l r => .mul (substituteFormulaExpr l varName replacement)
      (substituteFormulaExpr r varName replacement)
  | .max l r => .max (substituteFormulaExpr l varName replacement)
      (substituteFormulaExpr r varName replacement)
  | .min l r => .min (substituteFormulaExpr l varName replacement)
      (substituteFormulaExpr r varName replacement)
  | .int _ | .emptySet => expr

/-- Substitution mapped over an argument list. -/
def substituteFormulaExprList (args : List FormulaExpr) (varName : String)
    (replacement : FormulaExpr) : List FormulaExpr :=
  match args with
  | [] => []
  | a :: rest =>
    substituteFormulaExpr a varName replacement ::
      substituteFormulaExprList rest varName replacement

end

/-- `substituteFormula(formula, varName, replacement)`: capture-free in the
shadowing sense — a quantifier over `varName` leaves its body untouched. -/
def substituteFormula (formula : Formula) (varName : String)
    (replacement : FormulaExpr) : Formula :=
  match formula with
  | .forall_ v s body =>
    if v = varName then formula
    else .forall_ v s (substituteFormula body varName replacement)
  | .exists_ v s body =>
    if v = varName then formula
    else .exists_ v s (substituteFormula body varName replacement)
  | .implies l r =>
    .implies (substituteFormula l varName replacement)
      (substituteFormula r varName replacement)
  | .and l r =>
    .and (substituteFormula l varName replacement)
      (substituteFormula r varName replacement)
  | .or l r =>
    .or (substituteFormula l varName replacement)
      (substituteFormula r varName replacement)
  | .not body => .not (substituteFormula body varName replacement)
  | .judgment j args =>
    .judgment j (substituteFormulaExprList args varName replacement)
  | .termEq l r =>
    .termEq (substituteFormulaExpr l varName replacement)
      (substituteFormulaExpr r varName replacement)
  | .termNeq l r =>
    .termNeq (substituteFormulaExpr l varName replacement)
      (substituteFormulaExpr r varName replacement)
  | .funcEq f a v =>
    .funcEq f (substituteFormulaExpr a varName replacement)
      (substituteFormulaExpr v varName replacement)
  | .funcLeq f a v =>
    .funcLeq f (substituteFormulaExpr a varName replacement)
      (substituteFormulaExpr v varName replacement)
  | .funcLt f a v =>
    .funcLt f (substituteFormulaExpr a varName replacement)
      (substituteFormulaExpr v varName replacement)
  | .numEq l r =>
    .numEq (substituteFormulaExpr l varName replacement)
      (substituteFormulaExpr r varName replacement)
  | .numNeq l r =>
    .numNeq (substituteFormulaExpr l varName replacement)
      (substituteFormulaExpr r varName replacement)
  | .numLeq l r =>
    .numLeq (substituteFormulaExpr l varName replacement)
      (substituteFormulaExpr r varName replacement)
  | .numLt l r =>
    .numLt (substituteFormulaExpr l varName replacement)
      (substituteFormulaExpr r varName replacement)
  | .numGeq l r =>
    .numGeq (substituteFormulaExpr l varName replacement)
      (substituteFormulaExpr r varName replacement)
  | .numGt l r =>
    .numGt (substituteFormulaExpr l varName replacement)
      (substituteFormulaExpr r varName replacement)
  | .setEmpty f a => .setEmpty f (substituteFormulaExpr a varName replacement)
  | .setIn e f a =>
    .setIn (substituteFormulaExpr e varName replacement) f
      (substituteFormulaExpr a varName replacement)
  | .true_ | .false_ => formula

mutual

/-- `formulaExprEqual`: syntactic equality of formula expressions. -/
def formulaExprEqual : FormulaExpr → FormulaExpr → Bool
  | .var a, .var b => a == b
  | .constructor c1 a1, .constructor c2 a2 =>
    c1 == c2 && a1.length == a2.length && formulaExprEqualList a1 a2
  | .funcApp f1 a1, .funcApp f2 a2 => f1 == f2 && formulaExprEqual a1 a2
  | .int v1, .int v2 => v1 == v2
  | .emptySet, .emptySet => true
  | .add l1 r1, .add l2 r2 => formulaExprEqual l1 l2 && formulaExprEqual r1 r2
  | .sub l1 r1, .sub l2 r2 => formulaExprEqual l1 l2 && formulaExprEqual r1 r2
  | .mul l1 r1, .mul l2 r2 => formulaExprEqual l1 l2 && formulaExprEqual r1 r2
  | .max l1 r1, .max l2 r2 => formulaExprEqual l1 l2 && formulaExprEqual r1 r2
  | .min l1 r1, .min l2 r2 => formulaExprEqual l1 l2 && formulaExprEqual r1 r2
  | _, _ => false

/-- Pairwise equality of argument lists. -/
def formulaExprEqualList : List FormulaExpr → List FormulaExpr → Bool
  | [], [] => true
  | a :: as_, b :: bs => formulaExprEqual a b && formulaExprEqualList as_ bs
  | _, _ => false

end

/-- `formulaEqual`: syntactic equality of formulas. -/
def formulaEqual : Formula → Formula → Bool
  | .forall_ v1 s1 b1, .forall_ v2 s2 b2 =>
    v1 == v2 && s1 == s2 && formulaEqual b1 b2
  | .exists_ v1 s1 b1, .exists_ v2 s2 b2 =>
    v1 == v2 && s1 == s2 && formulaEqual b1 b2
  | .implies l1 r1, .implies l2 r2 => formulaEqual l1 l2 && formulaEqual r1 r2
  | .and l1 r1, .and l2 r2 => formulaEqual l1 l2 && formulaEqual r1 r2
  | .or l1 r1, .or l2 r2 => formulaEqual l1 l2 && formulaEqual r1 r2
  | .not b1, .not b2 => formulaEqual b1 b2
  | .judgment j1 a1, .judgment j2 a2 =>
    j1 == j2 && a1.length == a2.length && formulaExprEqualList a1 a2
  | .termEq l1 r1, .termEq l2 r2 => formulaExprEqual l1 l2 && formulaExprEqual r1 r2
  | .termNeq l1 r1, .termNeq l2 r2 => formulaExprEqual l1 l2 && formulaExprEqual r1 r2
  | .funcEq f1 a1 v1, .funcEq f2 a2 v2 =>
    f1 == f2 && formulaExprEqual a1 a2 && formulaExprEqual v1 v2
  | .funcLeq f1 a1 v1, .funcLeq f2 a2 v2 =>
    f1 == f2 && formulaExprEqual a1 a2 && formulaExprEqual v1 v2
  | .funcLt f1 a1 v1, .funcLt f2 a2 v2 =>
    f1 == f2 && formulaExprEqual a1 a2 && formulaExprEqual v1 v2
  | .setEmpty f1 a1, .setEmpty f2 a2 => f1 == f2 && formulaExprEqual a1 a2
  | .setIn e1 f1 a1, .setIn e2 f2 a2 =>
    f1 == f2 && formulaExprEqual e1 e2 && formulaExprEqual a1 a2
  | .numEq l1 r1, .numEq l2 r2 => formulaExprEqual l1 l2 && formulaExprEqual r1 r2
  | .numNeq l1 r1, .numNeq l2 r2 => formulaExprEqual l1 l2 && formulaExprEqual r1 r2
  | .numLeq l1 r1, .numLeq l2 r2 => formulaExprEqual l1 l2 && formulaExprEqual r1 r2
  | .numLt l1 r1, .numLt l2 r2 => formulaExprEqual l1 l2 && formulaExprEqual r1 r2
  | .numGeq l1 r1, .numGeq l2 r2 => formulaExprEqual l1 l2 && formulaExprEqual r1 r2
  | .numGt l1 r1, .numGt l2 r2 => formulaExprEqual l1 l2 && formulaExprEqual r1 r2
  | .true_, .true_ => true
  | .false_, .false_ => true
  | _, _ => false

/-! ### Arithmetic evaluation and simplification -/

/-- `evalExprToNumber`: evaluate a constant expression, `none` on variables,
function applications, constructors and the empty set. -/
def evalExprToNumber : FormulaExpr → Option Int
  | .int v => some v
  | .add l r =>
    match evalExprToNumber l, evalExprToNumber r with
    | some a, some b => some (a + b)
    | _, _ => none
  | .sub l r =>
    match evalExprToNumber l, evalExprToNumber r with
    | some a, some b => some (a - b)
    | _, _ => none
  | .mul l r =>
    match evalExprToNumber l, evalExprToNumber r with
    | some a, some b => some (a * b)
    | _, _ => none
  | .max l r =>
    match evalExprToNumber l, evalExprToNumber r with
    | some a, some b => some (Max.max a b)
    | _, _ => none
  | .min l r =>
    match evalExprToNumber l, evalExprToNumber r with
    | some a, some b => some (Min.min a b)
    | _, _ => none
  | _ => none

/-- `e.kind === 'int' && e.value === v`. -/
def isIntLit (e : FormulaExpr) (v : Int) : Bool :=
  match e with
  | .int x => x == v
  | _ => false

mutual

/-- `simplifyExpr`: evaluate the whole expression if constant, otherwise
simplify subexpressions and apply the unit/zero/idempotence identities. -/
def simplifyExpr (expr : FormulaExpr) : FormulaExpr :=
  match evalExprToNumber expr with
  | some val => .int val
  | none =>
    match expr with
    | .add l r =>
      let left := simplifyExpr l
      let right := simplifyExpr r
      if isIntLit left 0 then right
      else if isIntLit right 0 then left
      else
        match evalExprToNumber left, evalExprToNumber right with
        | some lv, some rv => .int (lv + rv)
        | _, _ => .add left right
    | .sub l r =>
      let left := simplifyExpr l
      let right := simplifyExpr r
      if isIntLit right 0 then left
      else if formulaExprEqual left right then .int 0
      else
        match evalExprToNumber left, evalExprToNumber right with
        | some lv, some rv => .int (lv - rv)
        | _, _ => .sub left right
    | .mul l r =>
      let left := simplifyExpr l
      let right := simplifyExpr r
      if isIntLit left 0 then .int 0
      else if isIntLit right 0 then .int 0
      else if isIntLit left 1 then right
      else if isIntLit right 1 then left
      else
        match evalExprToNumber left, evalExprToNumber right with
        | some lv, some rv => .int (lv * rv)
        | _, _ => .mul left right
    | .max l r =>
      let left := simplifyExpr l
      let right := simplifyExpr r
      if formulaExprEqual left right then left
      else
        match evalExprToNumber left, evalExprToNumber right with
        | some lv, some rv => .int (Max.max lv rv)
        | _, _ => .max left right
    | .min l r =>
      let left := simplifyExpr l
      let right := simplifyExpr r
      if formulaExprEqual left right then left
      else
        match evalExprToNumber left, evalExprToNumber right with
        | some lv, some rv => .int (Min.min lv rv)
        | _, _ => .min left right
    | .funcApp f a => .funcApp f (simplifyExpr a)
    | .constructor c args => .constructor c (simplifyExprList args)
    | _ => expr

/-- `args.map(simplifyExpr)`. -/
def simplifyExprList : List FormulaExpr → List FormulaExpr
  | [] => []
  | a :: rest => simplifyExpr a :: simplifyExprList rest

end

/-! ### Lemmas about the simplifier -/

/-- Structural induction principle for `FormulaExpr` (nested in `List`). -/
theorem FormulaExpr.indSubOn {motive : FormulaExpr → Prop}
    (hvar : ∀ n, motive (.var n))
    (hctor : ∀ c args, (∀ a ∈ args, motive a) → motive (.constructor c args))
    (hfunc : ∀ f a, motive a → motive (.funcApp f a))
    (hint : ∀ v, motive (.int v))
    (hempty : motive .emptySet)
    (hadd : ∀ l r, motive l → motive r → motive (.add l r))
    (hsub : ∀ l r, motive l → motive r → motive (.sub l r))
    (hmul : ∀ l r, motive l → motive r → motive (.mul l r))
    (hmax : ∀ l r, motive l → motive r → motive (.max l r))
    (hmin : ∀ l r, motive l → motive r → motive (.min l r)) :
    ∀ e, motive e
  | .var n => hvar n
  | .constructor c args => hctor c args (fun a ha =>
      FormulaExpr.indSubOn hvar hctor hfunc hint hempty hadd hsub hmul hmax hmin a)
  | .funcApp f a => hfunc f a
      (FormulaExpr.indSubOn hvar hctor hfunc hint hempty hadd hsub hmul hmax hmin a)
  | .int v => hint v
  | .emptySet => hempty
  | .add l r =>
    hadd l r (FormulaExpr.indSubOn hvar hctor hfunc hint hempty hadd hsub hmul hmax hmin l)
      (FormulaExpr.indSubOn hvar hctor hfunc hint hempty hadd hsub hmul hmax hmin r)
  | .sub l r =>
    hsub l r (FormulaExpr.indSubOn hvar hctor hfunc hint hempty hadd hsub hmul hmax hmin l)
      (FormulaExpr.indSubOn hvar hctor hfunc hint hempty hadd hsub hmul hmax hmin r)
  | .mul l r =>
    hmul l r (FormulaExpr.indSubOn hvar hctor hfunc hint hempty hadd hsub hmul hmax hmin l)
      (FormulaExpr.indSubOn hvar hctor hfunc hint hempty hadd hsub hmul hmax hmin r)
  | .max l r =>
    hmax l r (FormulaExpr.indSubOn hvar hctor hfunc hint hempty hadd hsub hmul hmax hmin l)
      (FormulaExpr.indSubOn hvar hctor hfunc hint hempty hadd hsub hmul hmax hmin r)
  | .min l r =>
    hmin l r (FormulaExpr.indSubOn hvar hctor hfunc hint hempty hadd hsub hmul hmax hmin l)
      (FormulaExpr.indSubOn hvar hctor hfunc hint hempty hadd hsub hmul hmax hmin r)
termination_by e => sizeOf e
decreasing_by
  all_goals first
    | (have h9 := List.sizeOf_lt_of_mem ha
       simp only [FormulaExpr.constructor.sizeOf_spec]; omega)
    | (simp only [FormulaExpr.funcApp.sizeOf_spec, FormulaExpr.add.sizeOf_spec,
        FormulaExpr.sub.sizeOf_spec, FormulaExpr.mul.sizeOf_spec,
        FormulaExpr.max.sizeOf_spec, FormulaExpr.min.sizeOf_spec]; omega)

theorem simplifyExpr_eval_eq {e : FormulaExpr} {v : Int}
    (h : evalExprToNumber e = some v) : simplifyExpr e = .int v := by
  cases e with
  | var n => simp [evalExprToNumber] at h
  | constructor c args => simp [evalExprToNumber] at h
  | funcApp f a => simp [evalExprToNumber] at h
  | int x => simp [evalExprToNumber] at h; subst h; rfl
  | emptySet => simp [evalExprToNumber] at h
  | add l r =>
    conv_lhs => rw [simplifyExpr]
    rw [h]
  | sub l r =>
    conv_lhs => rw [simplifyExpr]
    rw [h]
  | mul l r =>
    conv_lhs => rw [simplifyExpr]
    rw [h]
  | max l r =>
    conv_lhs => rw [simplifyExpr]
    rw [h]
  | min l r =>
    conv_lhs => rw [simplifyExpr]
    rw [h]

theorem simplifyExpr_int (v : Int) : simplifyExpr (.int v) = .int v := rfl

theorem simplifyExpr_add_eq {l r : FormulaExpr}
    (h : evalExprToNumber (.add l r) = none) :
    simplifyExpr (.add l r) =
      (if isIntLit (simplifyExpr l) 0 = true then simplifyExpr r
       else if isIntLit (simplifyExpr r) 0 = true then simplifyExpr l
       else
         match evalExprToNumber (simplifyExpr l), evalExprToNumber (simplifyExpr r) with
         | some lv, some rv => .int (lv + rv)
         | _, _ => .add (simplifyExpr l) (simplifyExpr r)) := by
  conv_lhs => rw [simplifyExpr]
  rw [h]

theorem simplifyExpr_sub_eq {l r : FormulaExpr}
    (h : evalExprToNumber (.sub l r) = none) :
    simplifyExpr (.sub l r) =
      (if isIntLit (simplifyExpr r) 0 = true then simplifyExpr l
       else if formulaExprEqual (simplifyExpr l) (simplifyExpr r) = true then .int 0
       else
         match evalExprToNumber (simplifyExpr l), evalExprToNumber (simplifyExpr r) with
         | some lv, some rv => .int (lv - rv)
         | _, _ => .sub (simplifyExpr l) (simplifyExpr r)) := by
  conv_lhs => rw [simplifyExpr]
  rw [h]

theorem simplifyExpr_mul_eq {l r : FormulaExpr}
    (h : evalExprToNumber (.mul l r) = none) :
    simplifyExpr (.mul l r) =
      (if isIntLit (simplifyExpr l) 0 = true then .int 0
       else if isIntLit (simplifyExpr r) 0 = true then .int 0
       else if isIntLit (simplifyExpr l) 1 = true then simplifyExpr r
       else if isIntLit (simplifyExpr r) 1 = true then simplifyExpr l
       else
         match evalExprToNumber (simplifyExpr l), evalExprToNumber (simplifyExpr r) with
         | some lv, some rv => .int (lv * rv)
         | _, _ => .mul (simplifyExpr l) (simplifyExpr r)) := by
  conv_lhs => rw [simplifyExpr]
  rw [h]

theorem simplifyExpr_max_eq {l r : FormulaExpr}
    (h : evalExprToNumber (.max l r) = none) :
    simplifyExpr (.max l r) =
      (if formulaExprEqual (simplifyExpr l) (simplifyExpr r) = true then simplifyExpr l
       else
         match evalExprToNumber (simplifyExpr l), evalExprToNumber (simplifyExpr r) with
         | some lv, some rv => .int (Max.max lv rv)
         | _, _ => .max (simplifyExpr l) (simplifyExpr r)) := by
  conv_lhs => rw [simplifyExpr]
  rw [h]

theorem simplifyExpr_min_eq {l r : FormulaExpr}
    (h : evalExprToNumber (.min l r) = none) :
    simplifyExpr (.min l r) =
      (if formulaExprEqual (simplifyExpr l) (simplifyExpr r) = true then simplifyExpr l
       else
         match evalExprToNumber (simplifyExpr l), evalExprToNumber (simplifyExpr r) with
         | some lv, some rv => .int (Min.min lv rv)
         | _, _ => .min (simplifyExpr l) (simplifyExpr r)) := by
  conv_lhs => rw [simplifyExpr]
  rw [h]

theorem simplifyExprList_eq_map (l : List FormulaExpr) :
    simplifyExprList l = l.map simplifyExpr := by
  induction l with
  | nil => rfl
  | cons a rest ih => simp [simplifyExprList, ih]

theorem simplifyExpr_idem : ∀ e : FormulaExpr,
    simplifyExpr (simplifyExpr e) = simplifyExpr e := by
  intro e
  induction e using FormulaExpr.indSubOn with
  | hvar n => rfl
  | hint v => rfl
  | hempty => rfl
  | hfunc f a iha =>
    show FormulaExpr.funcApp f (simplifyExpr (simplifyExpr a)) =
      FormulaExpr.funcApp f (simplifyExpr a)
    rw [iha]
  | hctor c args ih =>
    show FormulaExpr.constructor c (simplifyExprList (simplifyExprList args)) =
      FormulaExpr.constructor c (simplifyExprList args)
    simp only [simplifyExprList_eq_map, List.map_map]
    congr 1
    exact List.map_congr_left (fun a ha => ih a ha)
  | hadd l r ihl ihr =>
    cases heval : evalExprToNumber (.add l r) with
    | some v => rw [simplifyExpr_eval_eq heval]; exact simplifyExpr_int _
    | none =>
      rw [simplifyExpr_add_eq heval]
      by_cases h0 : isIntLit (simplifyExpr l) 0 = true
      · rw [if_pos h0]; exact ihr
      · rw [if_neg h0]
        by_cases h1 : isIntLit (simplifyExpr r) 0 = true
        · rw [if_pos h1]; exact ihl
        · rw [if_neg h1]
          cases heL : evalExprToNumber (simplifyExpr l) with
          | some a =>
            cases heR : evalExprToNumber (simplifyExpr r) with
            | some b => exact simplifyExpr_int _
            | none =>
              show simplifyExpr (.add (simplifyExpr l) (simplifyExpr r)) =
                .add (simplifyExpr l) (simplifyExpr r)
              have hnone : evalExprToNumber
                  (.add (simplifyExpr l) (simplifyExpr r)) = none := by
                show (match evalExprToNumber (simplifyExpr l),
                        evalExprToNumber (simplifyExpr r) with
                      | some x, some y => some (x + y)
                      | _, _ => none) = none
                rw [heL, heR]
              rw [simplifyExpr_add_eq hnone, ihl, ihr, if_neg h0, if_neg h1, heL, heR]
          | none =>
            show simplifyExpr (.add (simplifyExpr l) (simplifyExpr r)) =
              .add (simplifyExpr l) (simplifyExpr r)
            have hnone : evalExprToNumber
                (.add (simplifyExpr l) (simplifyExpr r)) = none := by
              show (match evalExprToNumber (simplifyExpr l),
                      evalExprToNumber (simplifyExpr r) with
                    | some x, some y => some (x + y)
                    | _, _ => none) = none
              rw [heL]
            rw [simplifyExpr_add_eq hnone, ihl, ihr, if_neg h0, if_neg h1, heL]
  | hsub l r ihl ihr =>
    cases heval : evalExprToNumber (.sub l r) with
    | some v => rw [simplifyExpr_eval_eq heval]; exact simplifyExpr_int _
    | none =>
      rw [simplifyExpr_sub_eq heval]
      by_cases h0 : isIntLit (simplifyExpr r) 0 = true
      · rw [if_pos h0]; exact ihl
      · rw [if_neg h0]
        by_cases h1 : formulaExprEqual (simplifyExpr l) (simplifyExpr r) = true
        · rw [if_pos h1]; exact simplifyExpr_int _
        · rw [if_neg h1]
          cases heL : evalExprToNumber (simplifyExpr l) with
          | some a =>
            cases heR : evalExprToNumber (simplifyExpr r) with
            | some b => exact simplifyExpr_int _
            | none =>
              show simplifyExpr (.sub (simplifyExpr l) (simplifyExpr r)) =
                .sub (simplifyExpr l) (simplifyExpr r)
              have hnone : evalExprToNumber
                  (.sub (simplifyExpr l) (simplifyExpr r)) = none := by
                show (match evalExprToNumber (simplifyExpr l),
                        evalExprToNumber (simplifyExpr r) with
                      | some x, some y => some (x - y)
                      | _, _ => none) = none
                rw [heL, heR]
              rw [simplifyExpr_sub_eq hnone, ihl, ihr, if_neg h0, if_neg h1, heL, heR]
          | none =>
            show simplifyExpr (.sub (simplifyExpr l) (simplifyExpr r)) =
              .sub (simplifyExpr l) (simplifyExpr r)
            have hnone : evalExprToNumber
                (.sub (simplifyExpr l) (simplifyExpr r)) = none := by
              show (match evalExprToNumber (simplifyExpr l),
                      evalExprToNumber (simplifyExpr r) with
                    | some x, some y => some (x - y)
                    | _, _ => none) = none
              rw [heL]
            rw [simplifyExpr_sub_eq hnone, ihl, ihr, if_neg h0, if_neg h1, heL]
  | hmul l r ihl ihr =>
    cases heval : evalExprToNumber (.mul l r) with
    | some v => rw [simplifyExpr_eval_eq heval]; exact simplifyExpr_int _
    | none =>
      rw [simplifyExpr_mul_eq heval]
      by_cases h0 : isIntLit (simplifyExpr l) 0 = true
      · rw [if_pos h0]; exact simplifyExpr_int _
      · rw [if_neg h0]
        by_cases h1 : isIntLit (simplifyExpr r) 0 = true
        · rw [if_pos h1]; exact simplifyExpr_int _
        · rw [if_neg h1]
          by_cases h2 : isIntLit (simplifyExpr l) 1 = true
          · rw [if_pos h2]; exact ihr
          · rw [if_neg h2]
            by_cases h3 : isIntLit (simplifyExpr r) 1 = true
            · rw [if_pos h3]; exact ihl
            · rw [if_neg h3]
              cases heL : evalExprToNumber (simplifyExpr l) with
              | some a =>
                cases heR : evalExprToNumber (simplifyExpr r) with
                | some b => exact simplifyExpr_int _
                | none =>
                  show simplifyExpr (.mul (simplifyExpr l) (simplifyExpr r)) =
                    .mul (simplifyExpr l) (simplifyExpr r)
                  have hnone : evalExprToNumber
                      (.mul (simplifyExpr l) (simplifyExpr r)) = none := by
                    show (match evalExprToNumber (simplifyExpr l),
                            evalExprToNumber (simplifyExpr r) with
                          | some x, some y => some (x * y)
                          | _, _ => none) = none
                    rw [heL, heR]
                  rw [simplifyExpr_mul_eq hnone, ihl, ihr, if_neg h0, if_neg h1,
                    if_neg h2, if_neg h3, heL, heR]
              | none =>
                show simplifyExpr (.mul (simplifyExpr l) (simplifyExpr r)) =
                  .mul (simplifyExpr l) (simplifyExpr r)
                have hnone : evalExprToNumber
                    (.mul (simplifyExpr l) (simplifyExpr r)) = none := by
                  show (match evalExprToNumber (simplifyExpr l),
                          evalExprToNumber (simplifyExpr r) with
                        | some x, some y => some (x * y)
                        | _, _ => none) = none
                  rw [heL]
                rw [simplifyExpr_mul_eq hnone, ihl, ihr, if_neg h0, if_neg h1,
                  if_neg h2, if_neg h3, heL]
  | hmax l r ihl ihr =>
    cases heval : evalExprToNumber (.max l r) with
    | some v => rw [simplifyExpr_eval_eq heval]; exact simplifyExpr_int _
    | none =>
      rw [simplifyExpr_max_eq heval]
      by_cases h0 : formulaExprEqual (simplifyExpr l) (simplifyExpr r) = true
      · rw [if_pos h0]; exact ihl
      · rw [if_neg h0]
        cases heL : evalExprToNumber (simplifyExpr l) with
        | some a =>
          cases heR : evalExprToNumber (simplifyExpr r) with
          | some b => exact simplifyExpr_int _
          | none =>
            show simplifyExpr (.max (simplifyExpr l) (simplifyExpr r)) =
              .max (simplifyExpr l) (simplifyExpr r)
            have hnone : evalExprToNumber
                (.max (simplifyExpr l) (simplifyExpr r)) = none := by
              show (match evalExprToNumber (simplifyExpr l),
                      evalExprToNumber (simplifyExpr r) with
                    | some x, some y => some (Max.max x y)
                    | _, _ => none) = none
              rw [heL, heR]
            rw [simplifyExpr_max_eq hnone, ihl, ihr, if_neg h0, heL, heR]
        | none =>
          show simplifyExpr (.max (simplifyExpr l) (simplifyExpr r)) =
            .max (simplifyExpr l) (simplifyExpr r)
          have hnone : evalExprToNumber
              (.max (simplifyExpr l) (simplifyExpr r)) = none := by
            show (match evalExprToNumber (simplifyExpr l),
                    evalExprToNumber (simplifyExpr r) with
                  | some x, some y => some (Max.max x y)
                  | _, _ => none) = none
            rw [heL]
          rw [simplifyExpr_max_eq hnone, ihl, ihr, if_neg h0, heL]
  | hmin l r ihl ihr =>
    cases heval : evalExprToNumber (.min l r) with
    | some v => rw [simplifyExpr_eval_eq heval]; exact simplifyExpr_int _
    | none =>
      rw [simplifyExpr_min_eq heval]
      by_cases h0 : formulaExprEqual (simplifyExpr l) (simplifyExpr r) = true
      · rw [if_pos h0]; exact ihl
      · rw [if_neg h0]
        cases heL : evalExprToNumber (simplifyExpr l) with
        | some a =>
          cases heR : evalExprToNumber (simplifyExpr r) with
          | some b => exact simplifyExpr_int _
          | none =>
            show simplifyExpr (.min (simplifyExpr l) (simplifyExpr r)) =
              .min (simplifyExpr l) (simplifyExpr r)
            have hnone : evalExprToNumber
                (.min (simplifyExpr l) (simplifyExpr r)) = none := by
              show (match evalExprToNumber (simplifyExpr l),
                      evalExprToNumber (simplifyExpr r) with
                    | some x, some y => some (Min.min x y)
                    | _, _ => none) = none
              rw [heL, heR]
            rw [simplifyExpr_min_eq hnone, ihl, ihr, if_neg h0, heL, heR]
        | none =>
          show simplifyExpr (.min (simplifyExpr l) (simplifyExpr r)) =
            .min (simplifyExpr l) (simplifyExpr r)
          have hnone : evalExprToNumber
              (.min (simplifyExpr l) (simplifyExpr r)) = none := by
            show (match evalExprToNumber (simplifyExpr l),
                    evalExprToNumber (simplifyExpr r) with
                  | some x, some y => some (Min.min x y)
                  | _, _ => none) = none
            rw [heL]
          rw [simplifyExpr_min_eq hnone, ihl, ihr, if_neg h0, heL]

/-- **C6.**  `simplifyExpr` is idempotent, and evaluation-preserving: a ground
expression (one `evalExprToNumber` evaluates) evaluates to the same integer
after simplification — indeed the simplifier rewrites any such expression to
that integer literal. -/
theorem C6_simplifyExpr_idempotent_preserving :
    (∀ e : FormulaExpr, simplifyExpr (simplifyExpr e) = simplifyExpr e) ∧
    (∀ (e : FormulaExpr) (v : Int), evalExprToNumber e = some v →
      evalExprToNumber (simplifyExpr e) = some v) := by
  refine ⟨simplifyExpr_idem, ?_⟩
  intro e v h
  rw [simplifyExpr_eval_eq h]
  rfl

/-- **C6, witness.**  The evaluation-preservation part at `2 + 3`. -/
theorem C6_witness :
    evalExprToNumber (simplifyExpr (.add (.int 2) (.int 3))) = some 5 :=
  C6_simplifyExpr_idempotent_preserving.2 (.add (.int 2) (.int 3)) 5 rfl

/-! ## Proof goals, the linear-arithmetic decider, and formula simplification -/

/-- A bound variable of a proof context. -/
structure ProofVariable where
  name : String
  sortId : String

/-- A hypothesis of a proof context. -/
structure ProofHypothesis where
  id : String
  name : String
  formula : Formula

/-- A proof context.  The source field `variables` is a reserved word in
Lean and is rendered `vars` here. -/
structure ProofContext where
  vars : List ProofVariable
  hypotheses : List ProofHypothesis

/-- A proof goal. -/
structure ProofGoal where
  id : String
  context : ProofContext
  goal : Formula

/-- The hypothesis scan of `isNonNegative`: `expr ≥ c` with `c ≤ 0`, or
`expr > c` with `c < 0`. -/
def hypWitnessesNonNeg (expr : FormulaExpr) (h : ProofHypothesis) : Bool :=
  match h.formula with
  | .numGeq l r =>
    formulaExprEqual l expr &&
      (match evalExprToNumber r with
       | some rv => decide (rv ≤ 0)
       | none => false)
  | .numGt l r =>
    formulaExprEqual l expr &&
      (match evalExprToNumber r with
       | some rv => decide (rv < 0)
       | none => false)
  | _ => false

/-- `isNonNegative(expr, hypotheses)`. -/
def isNonNegative (hypotheses : List ProofHypothesis) (expr : FormulaExpr) : Bool :=
    match evalExprToNumber expr with
    | some val => decide (0 ≤ val)
    | none =>
      if hypotheses.any (hypWitnessesNonNeg expr) then true
      else
        match expr with
        | .add l r => isNonNegative hypotheses l && isNonNegative hypotheses r
        | .mul l r => isNonNegative hypotheses l && isNonNegative hypotheses r
        | .max l r => isNonNegative hypotheses l || isNonNegative hypotheses r
        | .min l r => isNonNegative hypotheses l && isNonNegative hypotheses r
        | _ => false

/-- The hypothesis scan of `isPositive`: `expr > c` with `c ≥ 0`, or
`expr ≥ c` with `c > 0`. -/
def hypWitnessesPos (expr : FormulaExpr) (h : ProofHypothesis) : Bool :=
  match h.formula with
  | .numGt l r =>
    formulaExprEqual l expr &&
      (match evalExprToNumber r with
       | some rv => decide (0 ≤ rv)
       | none => false)
  | .numGeq l r =>
    formulaExprEqual l expr &&
      (match evalExprToNumber r with
       | some rv => decide (0 < rv)
       | none => false)
  | _ => false

/-- `isPositive(expr, hypotheses)`. -/
def isPositive (hypotheses : List ProofHypothesis) (expr : FormulaExpr) : Bool :=
    match evalExprToNumber expr with
    | some val => decide (0 < val)
    | none =>
      if hypotheses.any (hypWitnessesPos expr) then true
      else
        match expr with
        | .add l r =>
          (isPositive hypotheses l && isNonNegative hypotheses r) ||
          (isNonNegative hypotheses l && isPositive hypotheses r)
        | _ => false

/-- The hypothesis scan of `canProveGeq`: `left ≥ right` or `left > right`
verbatim among the hypotheses. -/
def hypProvesGeq (left right : FormulaExpr) (h : ProofHypothesis) : Bool :=
  match h.formula with
  | .numGeq l r => formulaExprEqual l left && formulaExprEqual r right
  | .numGt l r => formulaExprEqual l left && formulaExprEqual r right
  | _ => false

/-- `canProveGeq(left, right, hypotheses)`. -/
def canProveGeq (hypotheses : List ProofHypothesis) (left right : FormulaExpr) : Bool :=
    if hypotheses.any (hypProvesGeq left right) then true
    else if formulaExprEqual left right then true
    else
      match evalExprToNumber left, evalExprToNumber right with
      | some lv, some rv => decide (rv ≤ lv)
      | _, _ =>
        if evalExprToNumber right = some 0 then isNonNegative hypotheses left
        else
          match left with
          | .add a b =>
            (canProveGeq hypotheses a right && isNonNegative hypotheses b) ||
            (canProveGeq hypotheses b right && isNonNegative hypotheses a)
          | _ => false

/-- The result record of formula simplification. -/
structure SimplifyResult where
  solved : Bool
  newFormula : Option Formula
  message : Option String

/-- `tryLinearArithmetic(formula, hypotheses)`. -/
def tryLinearArithmetic (formula : Formula) (hypotheses : List ProofHypothesis) :
    SimplifyResult :=
  match formula with
  | .numGeq l r =>
    if canProveGeq hypotheses l r then ⟨true, none, some "By arithmetic reasoning"⟩
    else ⟨false, none, none⟩
  | .numGt l r =>
    if evalExprToNumber r = some 0 ∧ isPositive hypotheses l = true then
      ⟨true, none, some "By arithmetic reasoning"⟩
    else ⟨false, none, none⟩
  | .numLeq l r =>
    if canProveGeq hypotheses r l then ⟨true, none, some "By arithmetic reasoning"⟩
    else ⟨false, none, none⟩
  | .numLt l r =>
    if evalExprToNumber l = some 0 ∧ isPositive hypotheses r = true then
      ⟨true, none, some "By arithmetic reasoning"⟩
    else ⟨false, none, none⟩
  | _ => ⟨false, none, none⟩

/-- The six numeric comparison kinds, as passed to
`checkTrivialComparison`. -/
inductive NumCompKind where
  | numEq | numNeq | numLeq | numLt | numGeq | numGt
deriving DecidableEq

/-- `checkTrivialComparison(left, right, kind)`: decide on constants, or by
reflexivity on syntactically equal sides; otherwise undetermined. -/
def checkTrivialComparison (left right : FormulaExpr) (kind : NumCompKind) :
    Option Bool :=
  match evalExprToNumber left, evalExprToNumber right with
  | some lv, some rv =>
    some (match kind with
      | .numEq => decide (lv = rv)
      | .numNeq => decide (lv ≠ rv)
      | .numLeq => decide (lv ≤ rv)
      | .numLt => decide (lv < rv)
      | .numGeq => decide (rv ≤ lv)
      | .numGt => decide (rv < lv))
  | _, _ =>
    if formulaExprEqual left right then
      some (match kind with
        | .numEq | .numLeq | .numGeq => true
        | .numLt | .numGt | .numNeq => false)
    else none

/-- Rebuild a numeric comparison of the given kind. -/
def mkNumComp (kind : NumCompKind) (l r : FormulaExpr) : Formula :=
  match kind with
  | .numEq => .numEq l r
  | .numNeq => .numNeq l r
  | .numLeq => .numLeq l r
  | .numLt => .numLt l r
  | .numGeq => .numGeq l r
  | .numGt => .numGt l r

/-- The display symbol of a comparison kind (the source's `ops` table). -/
def numCompOpStr : NumCompKind → String
  | .numEq => "="
  | .numNeq => "≠"
  | .numLeq => "≤"
  | .numLt => "<"
  | .numGeq => "≥"
  | .numGt => ">"

/-- `evalExprToNumber(e) ?? ?` rendered for messages. -/
def evalNumStr (e : FormulaExpr) : String :=
  match evalExprToNumber e with
  | some v => toString v
  | none => "?"

/-- The comparison branch of `simplifyFormula`. -/
def simplifyComparison (kind : NumCompKind) (l r : FormulaExpr) : SimplifyResult :=
  let left := simplifyExpr l
  let right := simplifyExpr r
  match checkTrivialComparison left right kind with
  | some true =>
    ⟨true, none, some s!"{evalNumStr left} {numCompOpStr kind} {evalNumStr right} ✓"⟩
  | some false => ⟨false, some .false_, some "Comparison is false"⟩
  | none =>
    if ¬ (formulaExprEqual left l = true) ∨ ¬ (formulaExprEqual right r = true) then
      ⟨false, some (mkNumComp kind left right), some "Simplified arithmetic"⟩
    else ⟨false, some (mkNumComp kind l r), none⟩

/-- `simplifyFormula(formula)`. -/
def simplifyFormula : Formula → SimplifyResult
  | .true_ => ⟨true, none, some "Already true"⟩
  | .false_ => ⟨false, some .false_, some "Goal is false"⟩
  | .numEq l r => simplifyComparison .numEq l r
  | .numNeq l r => simplifyComparison .numNeq l r
  | .numLeq l r => simplifyComparison .numLeq l r
  | .numLt l r => simplifyComparison .numLt l r
  | .numGeq l r => simplifyComparison .numGeq l r
  | .numGt l r => simplifyComparison .numGt l r
  | .and l r =>
    let leftResult := simplifyFormula l
    let rightResult := simplifyFormula r
    if leftResult.solved && rightResult.solved then ⟨true, none, some "Both sides true"⟩
    else if leftResult.solved then
      ⟨false, some (rightResult.newFormula.getD r), some "Left side true"⟩
    else if rightResult.solved then
      ⟨false, some (leftResult.newFormula.getD l), some "Right side true"⟩
    else ⟨false, some (.and l r), none⟩
  | .or l r =>
    let leftResult := simplifyFormula l
    let rightResult := simplifyFormula r
    if leftResult.solved || rightResult.solved then ⟨true, none, some "One side true"⟩
    else ⟨false, some (.or l r), none⟩
  | .implies l r =>
    let rightResult := simplifyFormula r
    if rightResult.solved then ⟨true, none, some "Conclusion is true"⟩
    else ⟨false, some (.implies l r), none⟩
  | f => ⟨false, some f, none⟩

/-! ### Function unfolding in formula expressions -/

/-- The binding loop of `matchAgainstConstructor`. -/
def mkCaseBindings : List String → List FormulaExpr → JsMap FormulaExpr →
    JsMap FormulaExpr
  | [], _, acc => acc
  | _ :: _, [], acc => acc
  | v :: vs, a :: rest, acc => mkCaseBindings vs rest (jsSet acc v a)

/-- `matchAgainstConstructor(expr, constructorId, boundVars)`: the expression
must be an application of exactly that constructor with one argument per
bound variable. -/
def matchAgainstConstructor (expr : FormulaExpr) (constructorId : String)
    (boundVars : List String) (constructors : JsMap Constructor) :
    Option (JsMap FormulaExpr) :=
  match expr with
  | .constructor cid args =>
    if cid ≠ constructorId then none
    else
      match jsGet constructors constructorId with
      | none => none
      | some _ =>
        if args.length ≠ boundVars.length then none
        else some (mkCaseBindings boundVars args [])
  | _ => none

/-- `funcExprToFormulaExpr(expr, bindings)`: translate a case body,
substituting the bound variables.  Operations with no `FormulaExpr`
counterpart (`mul`, `max`, `min`, set operations, `singleton`, conditionals,
`callMulti`, `construct`) are translated to the literal `0`, as in the
source.  (The source also receives the function and registry, which it never
reads.) -/
def funcExprToFormulaExpr (bindings : JsMap FormulaExpr) : FuncExpr → FormulaExpr
  | .int v => .int v
  | .var nm => (jsGet bindings nm).getD (.var nm)
  | .call funcId arg => .funcApp funcId (funcExprToFormulaExpr bindings arg)
  | .add l r => .add (funcExprToFormulaExpr bindings l) (funcExprToFormulaExpr bindings r)
  | .sub l r => .sub (funcExprToFormulaExpr bindings l) (funcExprToFormulaExpr bindings r)
  | .empty => .emptySet
  | _ => .int 0

/-- The case loop of `unfoldFuncApp`: first case whose constructor matches
the argument wins. -/
def unfoldTryCases (arg : FormulaExpr) (constructors : JsMap Constructor) :
    List FuncCase → Option FormulaExpr
  | [] => none
  | funcCase :: rest =>
    match matchAgainstConstructor arg funcCase.constructorId funcCase.boundVars
        constructors with
    | some bindings => some (funcExprToFormulaExpr bindings funcCase.body)
    | none => unfoldTryCases arg constructors rest

mutual

/-- `unfoldFuncApp(expr, targetFunc)`: rewrite the outermost applicable
occurrence of `targetFunc` applied to a constructor argument (left subterm
first), or fail. -/
def unfoldFuncApp (targetFunc : RecursiveFunc) (constructors : JsMap Constructor)
    (functions : JsMap RecursiveFunc) : FormulaExpr → Option FormulaExpr
  | .funcApp fid arg =>
    if fid = targetFunc.id then
      unfoldTryCases arg constructors targetFunc.cases
    else
      match unfoldFuncApp targetFunc constructors functions arg with
      | some argUnfold => some (.funcApp fid argUnfold)
      | none => none
  | .add l r =>
    match unfoldFuncApp targetFunc constructors functions l with
    | some lu => some (.add lu r)
    | none =>
      match unfoldFuncApp targetFunc constructors functions r with
      | some ru => some (.add l ru)
      | none => none
  | .sub l r =>
    match unfoldFuncApp targetFunc constructors functions l with
    | some lu => some (.sub lu r)
    | none =>
      match unfoldFuncApp targetFunc constructors functions r with
      | some ru => some (.sub l ru)
      | none => none
  | .constructor cid args =>
    match unfoldArgsList targetFunc constructors functions args with
    | some args' => some (.constructor cid args')
    | none => none
  | _ => none

/-- The constructor-argument loop of `unfoldFuncApp`: replace the first
argument that unfolds. -/
def unfoldArgsList (targetFunc : RecursiveFunc) (constructors : JsMap Constructor)
    (functions : JsMap RecursiveFunc) : List FormulaExpr → Option (List FormulaExpr)
  | [] => none
  | a :: rest =>
    match unfoldFuncApp targetFunc constructors functions a with
    | some a' => some (a' :: rest)
    | none =>
      match unfoldArgsList targetFunc constructors functions rest with
      | some rest' => some (a :: rest')
      | none => none

end

/-! ## The tactic engine (App.tsx)

`uuidv4()` is modelled as an injective enumeration `uuid : Nat → String`
with an explicitly threaded call counter: the `n`-th call of the generator
returns `uuid n`.  Injectivity models the uniqueness guarantee of freshly
generated v4 UUIDs that the engine relies on for goal identifiers.  Every
function that calls the generator takes the counter and returns the advanced
counter, consuming one value per source call, in source evaluation order. -/

/-- The modelled UUID generator (injective). -/
def uuid (n : Nat) : String := String.mk (List.replicate (n + 1) 'u')

theorem uuid_inj {m n : Nat} (h : uuid m = uuid n) : m = n := by
  have h2 : (uuid m).data.length = (uuid n).data.length := by rw [h]
  simp only [uuid, List.length_replicate] at h2
  omega

/-- JS `a || b` on an optional string: `undefined` and `""` are falsy. -/
def jsOrDefault : Option String → String → String
  | some s, b => if s = "" then b else s
  | none, b => b

/-- The side selector of the `unfold` tactic. -/
inductive UnfoldSide where
  | left
  | right
deriving DecidableEq

/-- The `Tactic` union.  Constructor names follow the source `kind` tags. -/
inductive Tactic where
  | intro (varName : Option String)
  | intro_hyp (hypName : Option String)
  | exists_witness (witness : FormulaExpr)
  | split
  | left
  | right
  | induction (varName : String)
  | derivation_induction (hypName : String)
  | apply (hypName : String)
  | apply_rule (ruleId : String)
  | reflexivity
  | contradiction
  | compute
  | case_analysis (varName : String)
  | discriminate (hypName : String)
  | rewrite (hypName : String) (direction : Option String)
  | unfold (funcId : String) (side : UnfoldSide)
  | simplify
  | trivial
  | exact (hypName : String)

/-- The `kind` tag of a tactic, as used in the fall-through error message. -/
def Tactic.kindName : Tactic → String
  | .intro _ => "intro"
  | .intro_hyp _ => "intro_hyp"
  | .exists_witness _ => "exists_witness"
  | .split => "split"
  | .left => "left"
  | .right => "right"
  | .induction _ => "induction"
  | .derivation_induction _ => "derivation_induction"
  | .apply _ => "apply"
  | .apply_rule _ => "apply_rule"
  | .reflexivity => "reflexivity"
  | .contradiction => "contradiction"
  | .compute => "compute"
  | .case_analysis _ => "case_analysis"
  | .discriminate _ => "discriminate"
  | .rewrite _ _ => "rewrite"
  | .unfold _ _ => "unfold"
  | .simplify => "simplify"
  | .trivial => "trivial"
  | .exact _ => "exact"

/-- The `TacticResult` union: `{success: true, newGoals, message}` or
`{success: false, error}`. -/
inductive TacticResult where
  | success (newGoals : List ProofGoal) (message : String)
  | failure (error : String)

/-- The sides of a comparison formula accepted by `reflexivity`
(`termEq`, `numEq`, `numLeq`, `numGeq`). -/
def reflSides : Formula → Option (FormulaExpr × FormulaExpr)
  | .termEq l r => some (l, r)
  | .numEq l r => some (l, r)
  | .numLeq l r => some (l, r)
  | .numGeq l r => some (l, r)
  | _ => none

/-- The sides of a comparison formula accepted by `unfold` (the source list
`numEq, numGeq, numLeq, numGt, numLt, numNeq, termEq, termNeq`). -/
def compSides : Formula → Option (FormulaExpr × FormulaExpr)
  | .numEq l r => some (l, r)
  | .numGeq l r => some (l, r)
  | .numLeq l r => some (l, r)
  | .numGt l r => some (l, r)
  | .numLt l r => some (l, r)
  | .numNeq l r => some (l, r)
  | .termEq l r => some (l, r)
  | .termNeq l r => some (l, r)
  | _ => none

/-- `{...formula, left: u}` on a comparison formula. -/
def compWithLeft (u : FormulaExpr) : Formula → Formula
  | .numEq _ r => .numEq u r
  | .numGeq _ r => .numGeq u r
  | .numLeq _ r => .numLeq u r
  | .numGt _ r => .numGt u r
  | .numLt _ r => .numLt u r
  | .numNeq _ r => .numNeq u r
  | .termEq _ r => .termEq u r
  | .termNeq _ r => .termNeq u r
  | f => f

/-- `{...formula, right: u}` on a comparison formula. -/
def compWithRight (u : FormulaExpr) : Formula → Formula
  | .numEq l _ => .numEq l u
  | .numGeq l _ => .numGeq l u
  | .numLeq l _ => .numLeq l u
  | .numGt l _ => .numGt l u
  | .numLt l _ => .numLt l u
  | .numNeq l _ => .numNeq l u
  | .termEq l _ => .termEq l u
  | .termNeq l _ => .termNeq l u
  | f => f

/-- The fresh variables of one `induction`/`case_analysis` case:
`{name: arg.label || x_i, sortId: arg.sortId}` for each constructor
argument. -/
def freshVarsOf (c : Constructor) : List ProofVariable :=
  c.args.enum.map (fun p => ⟨jsOrDefault p.2.label s!"x{p.1}", p.2.sortId⟩)

/-- The induction-hypothesis loop of the `induction` case: one hypothesis
`IH_v : P[x := v]` per constructor argument of the induction sort, with a
fresh id per hypothesis. -/
def mkIHs (formula : Formula) (varName : String) (sortId : String) :
    List (ConstructorArg × ProofVariable) → Nat → List ProofHypothesis × Nat
  | [], ctr => ([], ctr)
  | (arg, fv) :: rest, ctr =>
    if arg.sortId == sortId then
      let ih : ProofHypothesis :=
        ⟨uuid ctr, s!"IH_{fv.name}",
         substituteFormula formula varName (.var fv.name)⟩
      let out := mkIHs formula varName sortId rest (ctr + 1)
      (ih :: out.1, out.2)
    else mkIHs formula varName sortId rest ctr

/-- One case goal of the `induction` tactic. -/
def inductionGoal (formula : Formula) (varName : String) (sortId : String)
    (context : ProofContext) (c : Constructor) (ctr : Nat) : ProofGoal × Nat :=
  let freshVars := freshVarsOf c
  let constructorExpr : FormulaExpr :=
    .constructor c.id (freshVars.map (fun v => .var v.name))
  let substitutedGoal := substituteFormula formula varName constructorExpr
  let ihOut := mkIHs formula varName sortId (c.args.zip freshVars) ctr
  let newVars := context.vars.filter (fun v => v.name != varName) ++ freshVars
  (⟨uuid ihOut.2, ⟨newVars, context.hypotheses ++ ihOut.1⟩, substitutedGoal⟩,
   ihOut.2 + 1)

/-- The `sortConstructors.map` of the `induction` case. -/
def inductionGoals (formula : Formula) (varName : String) (sortId : String)
    (context : ProofContext) : List Constructor → Nat → List ProofGoal × Nat
  | [], ctr => ([], ctr)
  | c :: rest, ctr =>
    let out := inductionGoal formula varName sortId context c ctr
    let outs := inductionGoals formula varName sortId context rest out.2
    (out.1 :: outs.1, outs.2)

/-- One case goal of the `case_analysis` tactic (no induction hypotheses). -/
def caseGoal (formula : Formula) (varName : String) (context : ProofContext)
    (c : Constructor) (ctr : Nat) : ProofGoal × Nat :=
  let freshVars := freshVarsOf c
  let constructorExpr : FormulaExpr :=
    .constructor c.id (freshVars.map (fun v => .var v.name))
  let substitutedGoal := substituteFormula formula varName constructorExpr
  let newVars := context.vars.filter (fun v => v.name != varName) ++ freshVars
  (⟨uuid ctr, ⟨newVars, context.hypotheses⟩, substitutedGoal⟩, ctr + 1)

/-- The `sortConstructors.map` of the `case_analysis` case. -/
def caseGoals (formula : Formula) (varName : String) (context : ProofContext) :
    List Constructor → Nat → List ProofGoal × Nat
  | [], ctr => ([], ctr)
  | c :: rest, ctr =>
    let out := caseGoal formula varName context c ctr
    let outs := caseGoals formula varName context rest out.2
    (out.1 :: outs.1, outs.2)

/-- `applyTactic(goal, tactic, constructors, sorts, _functions, _rules)`,
with the UUID counter threaded explicitly.  Every failure path returns the
counter unchanged (in the source, no `uuidv4()` call precedes any failure
return).  The unused `_rules` registry parameter of the source is omitted. -/
def applyTactic (goal : ProofGoal) (tactic : Tactic)
    (constructors : JsMap Constructor) (sorts : JsMap SortRec)
    (functions : JsMap RecursiveFunc) (ctr : Nat) : TacticResult × Nat :=
  let context := goal.context
  let formula := goal.goal
  match tactic with
  | .intro tvn =>
    match formula with
    | .forall_ fvn sortId body =>
      let varName := jsOrDefault tvn fvn
      if context.vars.any (fun v => v.name == varName) then
        (.failure s!"Variable {varName} already in context", ctr)
      else
        let newGoal : ProofGoal :=
          ⟨uuid ctr,
           ⟨context.vars ++ [⟨varName, sortId⟩], context.hypotheses⟩,
           if varName = fvn then body
           else substituteFormula body fvn (.var varName)⟩
        (.success [newGoal] s!"Introduced {varName}", ctr + 1)
    | _ => (.failure "intro requires a ∀ goal", ctr)
  | .intro_hyp thn =>
    match formula with
    | .implies l r =>
      let hypName := jsOrDefault thn s!"H{context.hypotheses.length}"
      if context.hypotheses.any (fun h => h.name == hypName) then
        (.failure s!"Hypothesis {hypName} already in context", ctr)
      else
        let newGoal : ProofGoal :=
          ⟨uuid ctr,
           ⟨context.vars, context.hypotheses ++ [⟨uuid (ctr + 1), hypName, l⟩]⟩,
           r⟩
        (.success [newGoal] s!"Assumed {hypName}", ctr + 2)
    | _ => (.failure "intro_hyp requires a → goal", ctr)
  | .exists_witness witness =>
    match formula with
    | .exists_ vn _ body =>
      let newGoal : ProofGoal :=
        ⟨uuid ctr, context, substituteFormula body vn witness⟩
      (.success [newGoal] "Provided witness", ctr + 1)
    | _ => (.failure "exists_witness requires a ∃ goal", ctr)
  | .split =>
    match formula with
    | .and l r =>
      (.success [⟨uuid ctr, context, l⟩, ⟨uuid (ctr + 1), context, r⟩]
         "Split conjunction", ctr + 2)
    | _ => (.failure "split requires a ∧ goal", ctr)
  | .left =>
    match formula with
    | .or l _ =>
      (.success [⟨uuid ctr, context, l⟩] "Proving left disjunct", ctr + 1)
    | _ => (.failure "left requires a ∨ goal", ctr)
  | .right =>
    match formula with
    | .or _ r =>
      (.success [⟨uuid ctr, context, r⟩] "Proving right disjunct", ctr + 1)
    | _ => (.failure "right requires a ∨ goal", ctr)
  | .induction varName =>
    match context.vars.find? (fun v => v.name == varName) with
    | none => (.failure s!"Variable {varName} not in context", ctr)
    | some varInfo =>
      match jsGet sorts varInfo.sortId with
      | none =>
        (.failure s!"Cannot do induction on {varName}: not an inductive type",
         ctr)
      | some sort =>
        if sort.kind ≠ .inductive_ then
          (.failure s!"Cannot do induction on {varName}: not an inductive type",
           ctr)
        else
          let sortConstructors := (constructors.map Prod.snd).filter
            (fun c => c.sortId == varInfo.sortId)
          if sortConstructors.length = 0 then
            (.failure "No constructors found for sort", ctr)
          else
            let out := inductionGoals formula varName varInfo.sortId context
              sortConstructors ctr
            (.success out.1
               s!"Induction on {varName} ({sortConstructors.length} cases)",
             out.2)
  | .reflexivity =>
    match reflSides formula with
    | none => (.failure "reflexivity requires =, ≤, or ≥ goal", ctr)
    | some (l, r) =>
      if formulaExprEqual l r then (.success [] "Reflexivity", ctr)
      else if formulaExprEqual (simplifyExpr l) (simplifyExpr r) then
        (.success [] "Reflexivity (after simplification)", ctr)
      else (.failure "Terms are not equal", ctr)
  | .trivial =>
    match formula with
    | .true_ => (.success [] "Trivial (⊤)", ctr)
    | _ =>
      match context.hypotheses.find? (fun h => formulaEqual h.formula formula)
          with
      | some matching => (.success [] s!"Trivial (from {matching.name})", ctr)
      | none => (.failure "Goal is not trivially true", ctr)
  | .exact hypName =>
    match context.hypotheses.find? (fun h => h.name == hypName) with
    | none => (.failure s!"Hypothesis {hypName} not found", ctr)
    | some hyp =>
      if formulaEqual hyp.formula formula then
        (.success [] s!"Exact {hypName}", ctr)
      else (.failure s!"Hypothesis {hypName} does not match goal", ctr)
  | .case_analysis varName =>
    match context.vars.find? (fun v => v.name == varName) with
    | none => (.failure s!"Variable {varName} not in context", ctr)
    | some varInfo =>
      match jsGet sorts varInfo.sortId with
      | none =>
        (.failure
           s!"Cannot do case analysis on {varName}: not an inductive type",
         ctr)
      | some sort =>
        if sort.kind ≠ .inductive_ then
          (.failure
             s!"Cannot do case analysis on {varName}: not an inductive type",
           ctr)
        else
          let sortConstructors := (constructors.map Prod.snd).filter
            (fun c => c.sortId == varInfo.sortId)
          let out := caseGoals formula varName context sortConstructors ctr
          (.success out.1
             s!"Case analysis on {varName} ({sortConstructors.length} cases)",
           out.2)
  | .discriminate hypName =>
    match context.hypotheses.find? (fun h => h.name == hypName) with
    | none => (.failure s!"Hypothesis {hypName} not found", ctr)
    | some hyp =>
      match hyp.formula with
      | .termEq left right =>
        match left, right with
        | .constructor lc _, .constructor rc _ =>
          if lc ≠ rc then (.success [] s!"Discriminate {hypName}", ctr)
          else
            (.failure "Cannot discriminate: constructors are not different",
             ctr)
        | _, _ =>
          (.failure "Cannot discriminate: constructors are not different", ctr)
      | _ => (.failure s!"Hypothesis {hypName} is not an equality", ctr)
  | .apply hypName =>
    match context.hypotheses.find? (fun h => h.name == hypName) with
    | none => (.failure s!"Hypothesis {hypName} not found", ctr)
    | some hyp =>
      match hyp.formula with
      | .implies l r =>
        if formulaEqual r formula then
          (.success [⟨uuid ctr, context, l⟩] s!"Applied {hypName}", ctr + 1)
        else (.failure s!"Cannot apply {hypName} to this goal", ctr)
      | .forall_ _ _ _ =>
        (.failure "Direct application of ∀ hypotheses not yet supported", ctr)
      | _ => (.failure s!"Cannot apply {hypName} to this goal", ctr)
  | .unfold funcId side =>
    match jsGet functions funcId with
    | none => (.failure "Function not found", ctr)
    | some func =>
      match compSides formula with
      | none => (.failure "Unfold only works on equality/comparison goals", ctr)
      | some (l, r) =>
        let expr := match side with | .left => l | .right => r
        match unfoldFuncApp func constructors functions expr with
        | none =>
          (.failure s!"Could not unfold {func.name} - no matching case found",
           ctr)
        | some unfoldedExpr =>
          let newFormula := match side with
            | .left => compWithLeft unfoldedExpr formula
            | .right => compWithRight unfoldedExpr formula
          (.success [⟨uuid ctr, context, newFormula⟩] s!"Unfolded {func.name}",
           ctr + 1)
  | .simplify =>
    let arithResult := tryLinearArithmetic formula context.hypotheses
    if arithResult.solved then
      (.success [] (jsOrDefault arithResult.message "Solved by arithmetic"),
       ctr)
    else
      let simplified := simplifyFormula formula
      if simplified.solved then
        (.success [] (jsOrDefault simplified.message "Simplified to true"), ctr)
      else
        match simplified.newFormula with
        | some nf =>
          if formulaEqual nf formula then
            (.failure "Cannot simplify further", ctr)
          else
            (.success [⟨uuid ctr, context, nf⟩]
               (jsOrDefault simplified.message "Simplified"), ctr + 1)
        | none => (.failure "Cannot simplify further", ctr)
  | t => (.failure s!"Tactic { t.kindName} not implemented", ctr)

/-- The proof status union. -/
inductive ProofStatus where
  | incomplete
  | complete
  | invalid
deriving DecidableEq

/-- A proof step record. -/
structure ProofStep where
  goalId : String
  tactic : Tactic
  resultingGoals : List String

/-- A property to be proved. -/
structure Property where
  id : String
  name : String
  formula : Formula
  description : Option String

/-- A proof attempt. -/
structure Proof where
  id : String
  propertyId : String
  goals : JsMap ProofGoal
  steps : List ProofStep
  rootGoalId : String
  openGoals : List String
  status : ProofStatus

/-- `createProof(property)`: the root goal has an empty context and the
property formula as its goal. -/
def createProof (property : Property) (ctr : Nat) : Proof × Nat :=
  let rootGoal : ProofGoal := ⟨uuid ctr, ⟨[], []⟩, property.formula⟩
  (⟨uuid (ctr + 1), property.id, [(rootGoal.id, rootGoal)], [], rootGoal.id,
    [rootGoal.id], .incomplete⟩,
   ctr + 2)

/-- `applyTacticToProof(proof, goalId, tactic, ...)`.  The source guards
`if (!proof.openGoals.includes(goalId))` with an early failure return; it is
rendered here as the positive condition with swapped branches. -/
def applyTacticToProof (proof : Proof) (goalId : String) (tactic : Tactic)
    (constructors : JsMap Constructor) (sorts : JsMap SortRec)
    (functions : JsMap RecursiveFunc) (ctr : Nat) :
    Proof × TacticResult × Nat :=
  match jsGet proof.goals goalId with
  | none => (proof, .failure "Goal not found", ctr)
  | some goal =>
    if proof.openGoals.contains goalId then
      match applyTactic goal tactic constructors sorts functions ctr with
      | (.failure e, ctr2) => (proof, .failure e, ctr2)
      | (.success newGoals msg, ctr2) =>
        let newGoalsMap :=
          newGoals.foldl (fun m g => jsSet m g.id g) proof.goals
        let newOpenGoals :=
          (proof.openGoals.filter (fun i => i != goalId)) ++
            newGoals.map ProofGoal.id
        let step : ProofStep := ⟨goalId, tactic, newGoals.map ProofGoal.id⟩
        (⟨proof.id, proof.propertyId, newGoalsMap, proof.steps ++ [step],
          proof.rootGoalId, newOpenGoals,
          if newOpenGoals.length = 0 then .complete else .incomplete⟩,
         .success newGoals msg, ctr2)
    else (proof, .failure "Goal already proved", ctr)

/-! ### Goal-map and goal-id lemmas -/

theorem jsHas_eq_isSome {α : Type} (m : JsMap α) (k : String) :
    jsHas m k = (jsGet m k).isSome := by
  simp [jsHas, jsGet]

theorem jsGet_foldl_jsSet_not_mem (gs : List ProofGoal) (m : JsMap ProofGoal)
    (k : String) (hk : k ∉ gs.map ProofGoal.id) :
    jsGet (gs.foldl (fun m g => jsSet m g.id g) m) k = jsGet m k := by
  induction gs generalizing m with
  | nil => rfl
  | cons g rest ih =>
    simp only [List.map_cons, List.mem_cons] at hk
    push_neg at hk
    rw [List.foldl_cons, ih _ hk.2, jsGet_jsSet,
      if_neg (fun h => hk.1 h.symm)]

theorem jsGet_foldl_jsSet_mem (gs : List ProofGoal) (m : JsMap ProofGoal)
    (hnd : (gs.map ProofGoal.id).Nodup) {g : ProofGoal} (hg : g ∈ gs) :
    jsGet (gs.foldl (fun m g => jsSet m g.id g) m) g.id = some g := by
  induction gs generalizing m with
  | nil => cases hg
  | cons g0 rest ih =>
    simp only [List.map_cons, List.nodup_cons] at hnd
    rcases List.mem_cons.mp hg with h | h
    · subst h
      rw [List.foldl_cons, jsGet_foldl_jsSet_not_mem _ _ _ hnd.1, jsGet_jsSet,
        if_pos rfl]
    · rw [List.foldl_cons]
      exact ih _ hnd.2 h

theorem jsHas_foldl_of_base (gs : List ProofGoal) (m : JsMap ProofGoal)
    (k : String) (h : jsHas m k = true) :
    jsHas (gs.foldl (fun m g => jsSet m g.id g) m) k = true := by
  induction gs generalizing m with
  | nil => exact h
  | cons g rest ih =>
    rw [List.foldl_cons]
    apply ih
    rw [jsHas_eq_isSome] at h ⊢
    rw [jsGet_jsSet]
    by_cases hk : g.id = k
    · simp [hk]
    · rw [if_neg hk]; exact h

theorem jsHas_foldl_of_mem (gs : List ProofGoal) (m : JsMap ProofGoal)
    {g : ProofGoal} (hg : g ∈ gs) :
    jsHas (gs.foldl (fun m g => jsSet m g.id g) m) g.id = true := by
  induction gs generalizing m with
  | nil => cases hg
  | cons g0 rest ih =>
    rcases List.mem_cons.mp hg with h | h
    · subst h
      rw [List.foldl_cons]
      apply jsHas_foldl_of_base
      rw [jsHas_eq_isSome, jsGet_jsSet, if_pos rfl]
      rfl
    · rw [List.foldl_cons]
      exact ih _ h

/-- Freshness invariant for generated goals: their ids are `uuid` values of
strictly increasing counter indices inside `[lo, hi)`. -/
def FreshIds (gs : List ProofGoal) (lo hi : Nat) : Prop :=
  ∃ ks : List Nat, gs.map ProofGoal.id = ks.map uuid ∧
    ks.Pairwise (· < ·) ∧ ∀ k ∈ ks, lo ≤ k ∧ k < hi

theorem FreshIds_nil (lo hi : Nat) : FreshIds [] lo hi :=
  ⟨[], rfl, List.Pairwise.nil, by intro k hk; cases hk⟩

theorem FreshIds_one (g : ProofGoal) (k lo hi : Nat) (hid : g.id = uuid k)
    (h1 : lo ≤ k) (h2 : k < hi) : FreshIds [g] lo hi :=
  ⟨[k], by simp [hid], List.pairwise_singleton _ _,
   by intro x hx; rw [List.mem_singleton] at hx; subst hx; exact ⟨h1, h2⟩⟩

theorem FreshIds_cons {g : ProofGoal} {gs : List ProofGoal} {lo k mid hi : Nat}
    (hid : g.id = uuid k) (h1 : lo ≤ k) (h2 : k < mid)
    (h : FreshIds gs mid hi) (h3 : mid ≤ hi) : FreshIds (g :: gs) lo hi := by
  obtain ⟨ks, heq, hp, hb⟩ := h
  refine ⟨k :: ks, by simp [heq, hid], ?_, ?_⟩
  · exact List.Pairwise.cons
      (fun b hb2 => lt_of_lt_of_le h2 (hb b hb2).1) hp
  · intro x hx
    rcases List.mem_cons.mp hx with h | h
    · subst h; exact ⟨h1, lt_of_lt_of_le h2 h3⟩
    · exact ⟨le_trans (le_trans h1 (le_of_lt h2)) (hb x h).1, (hb x h).2⟩

theorem FreshIds.nodup {gs : List ProofGoal} {lo hi : Nat}
    (h : FreshIds gs lo hi) : (gs.map ProofGoal.id).Nodup := by
  obtain ⟨ks, heq, hp, _⟩ := h
  rw [heq]
  exact List.Nodup.map (fun a b hab => uuid_inj hab)
    (hp.imp fun hlt => Nat.ne_of_lt hlt)

theorem mkIHs_ctr (f : Formula) (v s : String) :
    ∀ (l : List (ConstructorArg × ProofVariable)) (ctr : Nat),
      ctr ≤ (mkIHs f v s l ctr).2
  | [], _ => le_refl _
  | (a, fv) :: rest, ctr => by
    unfold mkIHs
    by_cases h : (a.sortId == s) = true
    · rw [if_pos h]
      have := mkIHs_ctr f v s rest (ctr + 1)
      dsimp only
      omega
    · rw [if_neg h]
      exact mkIHs_ctr f v s rest ctr

theorem inductionGoals_fresh (f : Formula) (v s : String) (ctx : ProofContext) :
    ∀ (cl : List Constructor) (ctr : Nat),
      ctr ≤ (inductionGoals f v s ctx cl ctr).2 ∧
      FreshIds (inductionGoals f v s ctx cl ctr).1 ctr
        (inductionGoals f v s ctx cl ctr).2
  | [], ctr => ⟨le_refl _, FreshIds_nil _ _⟩
  | c :: rest, ctr => by
    have h1 := mkIHs_ctr f v s (c.args.zip (freshVarsOf c)) ctr
    have ih := inductionGoals_fresh f v s ctx rest
      ((mkIHs f v s (c.args.zip (freshVarsOf c)) ctr).2 + 1)
    unfold inductionGoals inductionGoal
    dsimp only
    refine ⟨by omega, ?_⟩
    exact FreshIds_cons rfl h1 (Nat.lt_succ_self _) ih.2 ih.1

theorem caseGoals_fresh (f : Formula) (v : String) (ctx : ProofContext) :
    ∀ (cl : List Constructor) (ctr : Nat),
      ctr ≤ (caseGoals f v ctx cl ctr).2 ∧
      FreshIds (caseGoals f v ctx cl ctr).1 ctr (caseGoals f v ctx cl ctr).2
  | [], ctr => ⟨le_refl _, FreshIds_nil _ _⟩
  | c :: rest, ctr => by
    have ih := caseGoals_fresh f v ctx rest (ctr + 1)
    unfold caseGoals caseGoal
    dsimp only
    refine ⟨by omega, ?_⟩
    exact FreshIds_cons rfl (le_refl _) (Nat.lt_succ_self _) ih.2 ih.1

/-- Every successful tactic application returns goals whose ids are fresh
`uuid` values of pairwise distinct indices in `[ctr, ctr2)`, and the
counter never decreases. -/
theorem applyTactic_fresh (goal : ProofGoal) (tactic : Tactic)
    (cs : JsMap Constructor) (ss : JsMap SortRec) (fs : JsMap RecursiveFunc)
    (ctr : Nat) :
    ctr ≤ (applyTactic goal tactic cs ss fs ctr).2 ∧
    ∀ gs msg, (applyTactic goal tactic cs ss fs ctr).1 = .success gs msg →
      FreshIds gs ctr (applyTactic goal tactic cs ss fs ctr).2 := by
  unfold applyTactic
  cases tactic <;> dsimp only <;>
    first
      | exact ⟨le_refl _, fun gs msg h => nomatch h⟩
      | skip
  case intro tvn =>
    cases hf : goal.goal <;>
      try exact ⟨le_refl _, fun gs msg h => nomatch h⟩
    dsimp only
    split
    · exact ⟨le_refl _, fun gs msg h => nomatch h⟩
    · refine ⟨by omega, fun gs msg h => ?_⟩
      cases h
      exact FreshIds_one _ ctr ctr (ctr + 1) rfl (le_refl _) (by omega)
  case intro_hyp thn =>
    cases hf : goal.goal <;>
      try exact ⟨le_refl _, fun gs msg h => nomatch h⟩
    dsimp only
    split
    · exact ⟨le_refl _, fun gs msg h => nomatch h⟩
    · refine ⟨by omega, fun gs msg h => ?_⟩
      cases h
      exact FreshIds_one _ ctr ctr (ctr + 2) rfl (le_refl _) (by omega)
  case exists_witness w =>
    cases hf : goal.goal <;>
      try exact ⟨le_refl _, fun gs msg h => nomatch h⟩
    dsimp only
    refine ⟨by omega, fun gs msg h => ?_⟩
    cases h
    exact FreshIds_one _ ctr ctr (ctr + 1) rfl (le_refl _) (by omega)
  case split =>
    cases hf : goal.goal <;>
      try exact ⟨le_refl _, fun gs msg h => nomatch h⟩
    dsimp only
    refine ⟨by omega, fun gs msg h => ?_⟩
    cases h
    exact FreshIds_cons rfl (le_refl _) (Nat.lt_succ_self _)
      (FreshIds_one _ (ctr + 1) (ctr + 1) (ctr + 2) rfl (le_refl _) (by omega))
      (by omega)
  case left =>
    cases hf : goal.goal <;>
      try exact ⟨le_refl _, fun gs msg h => nomatch h⟩
    dsimp only
    refine ⟨by omega, fun gs msg h => ?_⟩
    cases h
    exact FreshIds_one _ ctr ctr (ctr + 1) rfl (le_refl _) (by omega)
  case right =>
    cases hf : goal.goal <;>
      try exact ⟨le_refl _, fun gs msg h => nomatch h⟩
    dsimp only
    refine ⟨by omega, fun gs msg h => ?_⟩
    cases h
    exact FreshIds_one _ ctr ctr (ctr + 1) rfl (le_refl _) (by omega)
  case induction varName =>
    cases hv : goal.context.vars.find? (fun v => v.name == varName) with
    | none => exact ⟨le_refl _, fun gs msg h => nomatch h⟩
    | some varInfo =>
      dsimp only
      cases hs : jsGet ss varInfo.sortId with
      | none => exact ⟨le_refl _, fun gs msg h => nomatch h⟩
      | some sort =>
        dsimp only
        split
        · exact ⟨le_refl _, fun gs msg h => nomatch h⟩
        · split
          · exact ⟨le_refl _, fun gs msg h => nomatch h⟩
          · have := inductionGoals_fresh goal.goal varName varInfo.sortId
              goal.context
              ((cs.map Prod.snd).filter (fun c => c.sortId == varInfo.sortId))
              ctr
            refine ⟨this.1, fun gs msg h => ?_⟩
            cases h
            exact this.2
  case reflexivity =>
    cases hr : reflSides goal.goal with
    | none => exact ⟨le_refl _, fun gs msg h => nomatch h⟩
    | some p =>
      obtain ⟨l, r⟩ := p
      dsimp only
      split
      · exact ⟨le_refl _, fun gs msg h => by cases h; exact FreshIds_nil _ _⟩
      · split
        · exact ⟨le_refl _, fun gs msg h => by cases h; exact FreshIds_nil _ _⟩
        · exact ⟨le_refl _, fun gs msg h => nomatch h⟩
  case trivial =>
    refine ⟨?_, ?_⟩
    · split
      · exact le_refl _
      · split
        · exact le_refl _
        · exact le_refl _
    · split
      · exact fun gs msg h => by cases h; exact FreshIds_nil _ _
      · split
        · exact fun gs msg h => by cases h; exact FreshIds_nil _ _
        · exact fun gs msg h => nomatch h
  case exact hypName =>
    cases hh : goal.context.hypotheses.find? (fun h => h.name == hypName) with
    | none => exact ⟨le_refl _, fun gs msg h => nomatch h⟩
    | some hyp =>
      dsimp only
      split
      · exact ⟨le_refl _, fun gs msg h => by cases h; exact FreshIds_nil _ _⟩
      · exact ⟨le_refl _, fun gs msg h => nomatch h⟩
  case case_analysis varName =>
    cases hv : goal.context.vars.find? (fun v => v.name == varName) with
    | none => exact ⟨le_refl _, fun gs msg h => nomatch h⟩
    | some varInfo =>
      dsimp only
      cases hs : jsGet ss varInfo.sortId with
      | none => exact ⟨le_refl _, fun gs msg h => nomatch h⟩
      | some sort =>
        dsimp only
        split
        · exact ⟨le_refl _, fun gs msg h => nomatch h⟩
        · have := caseGoals_fresh goal.goal varName goal.context
            ((cs.map Prod.snd).filter (fun c => c.sortId == varInfo.sortId))
            ctr
          refine ⟨this.1, fun gs msg h => ?_⟩
          cases h
          exact this.2
  case discriminate hypName =>
    cases hh : goal.context.hypotheses.find? (fun h => h.name == hypName) with
    | none => exact ⟨le_refl _, fun gs msg h => nomatch h⟩
    | some hyp =>
      dsimp only
      cases hf : hyp.formula <;>
        try exact ⟨le_refl _, fun gs msg h => nomatch h⟩
      rename_i left right
      dsimp only
      cases left <;> cases right <;>
        try exact ⟨le_refl _, fun gs msg h => nomatch h⟩
      dsimp only
      split
      · exact ⟨le_refl _, fun gs msg h => by cases h; exact FreshIds_nil _ _⟩
      · exact ⟨le_refl _, fun gs msg h => nomatch h⟩
  case apply hypName =>
    cases hh : goal.context.hypotheses.find? (fun h => h.name == hypName) with
    | none => exact ⟨le_refl _, fun gs msg h => nomatch h⟩
    | some hyp =>
      dsimp only
      cases hf : hyp.formula <;>
        try exact ⟨le_refl _, fun gs msg h => nomatch h⟩
      dsimp only
      split
      · refine ⟨by omega, fun gs msg h => ?_⟩
        cases h
        exact FreshIds_one _ ctr ctr (ctr + 1) rfl (le_refl _) (by omega)
      · exact ⟨le_refl _, fun gs msg h => nomatch h⟩
  case unfold funcId side =>
    cases hfu : jsGet fs funcId with
    | none => exact ⟨le_refl _, fun gs msg h => nomatch h⟩
    | some func =>
      dsimp only
      cases hcs : compSides goal.goal with
      | none => exact ⟨le_refl _, fun gs msg h => nomatch h⟩
      | some p =>
        obtain ⟨l, r⟩ := p
        dsimp only
        cases hu : unfoldFuncApp func cs fs
            (match side with | .left => l | .right => r) with
        | none => exact ⟨le_refl _, fun gs msg h => nomatch h⟩
        | some u =>
          dsimp only
          refine ⟨by omega, fun gs msg h => ?_⟩
          cases h
          exact FreshIds_one _ ctr ctr (ctr + 1) rfl (le_refl _) (by omega)
  case simplify =>
    split
    · exact ⟨le_refl _, fun gs msg h => by cases h; exact FreshIds_nil _ _⟩
    · split
      · exact ⟨le_refl _, fun gs msg h => by cases h; exact FreshIds_nil _ _⟩
      · cases hnf : (simplifyFormula goal.goal).newFormula with
        | none => exact ⟨le_refl _, fun gs msg h => nomatch h⟩
        | some nf =>
          dsimp only
          split
          · exact ⟨le_refl _, fun gs msg h => nomatch h⟩
          · refine ⟨by omega, fun gs msg h => ?_⟩
            cases h
            exact FreshIds_one _ ctr ctr (ctr + 1) rfl (le_refl _) (by omega)

/-- **C1.**  For every proof `P`, goal id `g`, and tactic `t`,
`applyTacticToProof(P, g, t)` either fails and leaves `P` unchanged, or
succeeds and returns a proof in which `g` is removed from `openGoals`, the
produced goals are appended to `openGoals` in order and added to the `goals`
mapping (all other entries of the mapping untouched), the step
`(g, t, [gᵢ.id])` is appended to the step log, and `status` is `complete`
exactly when the resulting `openGoals` list is empty; applying a tactic to a
goal id not in `openGoals` always fails. -/
theorem C1_applyTacticToProof_spec (proof : Proof) (goalId : String)
    (tactic : Tactic) (cs : JsMap Constructor) (ss : JsMap SortRec)
    (fs : JsMap RecursiveFunc) (ctr : Nat) :
    ((∃ e, (applyTacticToProof proof goalId tactic cs ss fs ctr).2.1 =
        .failure e) →
      (applyTacticToProof proof goalId tactic cs ss fs ctr).1 = proof) ∧
    (goalId ∉ proof.openGoals →
      ∃ e, (applyTacticToProof proof goalId tactic cs ss fs ctr).2.1 =
        .failure e) ∧
    (∀ newGoals msg,
      (applyTacticToProof proof goalId tactic cs ss fs ctr).2.1 =
        .success newGoals msg →
      (applyTacticToProof proof goalId tactic cs ss fs ctr).1.openGoals =
          proof.openGoals.filter (fun i => i != goalId) ++
            newGoals.map ProofGoal.id ∧
      (∀ g ∈ newGoals,
        jsGet (applyTacticToProof proof goalId tactic cs ss fs ctr).1.goals
          g.id = some g) ∧
      (∀ k, k ∉ newGoals.map ProofGoal.id →
        jsGet (applyTacticToProof proof goalId tactic cs ss fs ctr).1.goals k =
          jsGet proof.goals k) ∧
      (applyTacticToProof proof goalId tactic cs ss fs ctr).1.steps =
          proof.steps ++ [⟨goalId, tactic, newGoals.map ProofGoal.id⟩] ∧
      (applyTacticToProof proof goalId tactic cs ss fs ctr).1.rootGoalId =
          proof.rootGoalId ∧
      ((applyTacticToProof proof goalId tactic cs ss fs ctr).1.status =
          .complete ↔
        (applyTacticToProof proof goalId tactic cs ss fs ctr).1.openGoals =
          [])) := by
  cases hg : jsGet proof.goals goalId with
  | none =>
    have hred : applyTacticToProof proof goalId tactic cs ss fs ctr =
        (proof, .failure "Goal not found", ctr) := by
      simp only [applyTacticToProof, hg]
    rw [hred]
    exact ⟨fun _ => rfl, fun _ => ⟨_, rfl⟩, fun gs msg h => nomatch h⟩
  | some goal =>
    by_cases hc : proof.openGoals.contains goalId = true
    · have hmem : goalId ∈ proof.openGoals := by simpa using hc
      cases har : applyTactic goal tactic cs ss fs ctr with
      | mk res ctr2 =>
        cases res with
        | failure e =>
          have hred : applyTacticToProof proof goalId tactic cs ss fs ctr =
              (proof, .failure e, ctr2) := by
            simp only [applyTacticToProof, hg, if_pos hc, har]
          rw [hred]
          exact ⟨fun _ => rfl, fun hnm => absurd hmem hnm,
            fun gs msg h => nomatch h⟩
        | success gs0 msg0 =>
          have hfresh := (applyTactic_fresh goal tactic cs ss fs ctr).2 gs0
            msg0 (by rw [har])
          have hred : applyTacticToProof proof goalId tactic cs ss fs ctr =
              (⟨proof.id, proof.propertyId,
                gs0.foldl (fun m g => jsSet m g.id g) proof.goals,
                proof.steps ++ [⟨goalId, tactic, gs0.map ProofGoal.id⟩],
                proof.rootGoalId,
                (proof.openGoals.filter (fun i => i != goalId)) ++
                  gs0.map ProofGoal.id,
                if ((proof.openGoals.filter (fun i => i != goalId)) ++
                    gs0.map ProofGoal.id).length = 0 then .complete
                else .incomplete⟩,
               .success gs0 msg0, ctr2) := by
            simp only [applyTacticToProof, hg, if_pos hc, har]
          rw [hred]
          refine ⟨fun he => ?_, fun hnm => absurd hmem hnm,
            fun gs msg h => ?_⟩
          · obtain ⟨e, he⟩ := he
            exact nomatch he
          injection h with h1 h2
          subst h1
          refine ⟨rfl, ?_, ?_, rfl, rfl, ?_⟩
          · exact fun g hgmem =>
              jsGet_foldl_jsSet_mem gs0 proof.goals hfresh.nodup hgmem
          · exact fun k hk => jsGet_foldl_jsSet_not_mem gs0 proof.goals k hk
          · constructor
            · intro hst
              have hst2 : (if (List.filter (fun i => i != goalId)
                    proof.openGoals ++ List.map ProofGoal.id gs0).length = 0
                  then ProofStatus.complete
                  else ProofStatus.incomplete) = ProofStatus.complete := hst
              show List.filter (fun i => i != goalId) proof.openGoals ++
                List.map ProofGoal.id gs0 = []
              by_cases hlen :
                  (List.filter (fun i => i != goalId) proof.openGoals ++
                    List.map ProofGoal.id gs0).length = 0
              · exact List.length_eq_zero.mp hlen
              · rw [if_neg hlen] at hst2
                exact ProofStatus.noConfusion hst2
            · intro hemp
              have he2 : List.filter (fun i => i != goalId) proof.openGoals ++
                  List.map ProofGoal.id gs0 = ([] : List String) := hemp
              have hlen : (List.filter (fun i => i != goalId)
                  proof.openGoals ++ List.map ProofGoal.id gs0).length = 0 := by
                rw [he2]; rfl
              show (if (List.filter (fun i => i != goalId) proof.openGoals ++
                    List.map ProofGoal.id gs0).length = 0
                  then ProofStatus.complete
                  else ProofStatus.incomplete) = ProofStatus.complete
              rw [if_pos hlen]
    · have hnm : goalId ∉ proof.openGoals := by
        intro hmem
        exact hc (by simpa using hmem)
      have hred : applyTacticToProof proof goalId tactic cs ss fs ctr =
          (proof, .failure "Goal already proved", ctr) := by
        simp only [applyTacticToProof, hg, if_neg hc]
      rw [hred]
      exact ⟨fun _ => rfl, fun _ => ⟨_, rfl⟩, fun gs msg h => nomatch h⟩

def c1Prop : Property := ⟨"prop-1", "conj", .and .true_ .true_, none⟩

def c1P0 : Proof := (createProof c1Prop 0).1

theorem C1_witness :
    (applyTacticToProof c1P0 (uuid 0) .split [] [] [] 2).1.steps =
      c1P0.steps ++ [⟨uuid 0, .split, [uuid 2, uuid 3]⟩] :=
  ((C1_applyTacticToProof_spec c1P0 (uuid 0) .split [] [] [] 2).2.2
    [⟨uuid 2, ⟨[], []⟩, .true_⟩, ⟨uuid 3, ⟨[], []⟩, .true_⟩]
    "Split conjunction" rfl).2.2.2.1

/-! ### Proof invariants (C8) -/

/-- The proofs reachable by `createProof` followed by any sequence of
`applyTacticToProof` calls (with arbitrary registries, tactics, goal ids and
counter values). -/
inductive ReachableProof : Proof → Prop where
  | created (property : Property) (ctr : Nat) :
      ReachableProof (createProof property ctr).1
  | stepped (p : Proof) (goalId : String) (tactic : Tactic)
      (cs : JsMap Constructor) (ss : JsMap SortRec)
      (fs : JsMap RecursiveFunc) (ctr : Nat) : ReachableProof p →
      ReachableProof (applyTacticToProof p goalId tactic cs ss fs ctr).1

/-- The invariants claimed for every reachable proof: every open goal id is
a key of the goal mapping, the root goal id is a key of the goal mapping,
and the status is `complete` exactly when no goal is open. -/
def ProofInv (p : Proof) : Prop :=
  (∀ gid ∈ p.openGoals, jsHas p.goals gid = true) ∧
  jsHas p.goals p.rootGoalId = true ∧
  (p.status = .complete ↔ p.openGoals = [])

/-- **C8.**  Every proof reachable by `createProof` followed by any sequence
of `applyTacticToProof` calls satisfies: `openGoals ⊆ keys(goals)`,
`rootGoalId ∈ keys(goals)`, and `status = complete` iff `openGoals` is
empty. -/
theorem C8_proof_invariants (p : Proof) (hp : ReachableProof p) :
    ProofInv p := by
  induction hp with
  | created property ctr =>
    refine ⟨?_, ?_, ?_⟩
    · intro gid hgid
      have : gid = uuid ctr := by simpa [createProof] using hgid
      subst this
      simp [createProof, jsHas]
    · simp [createProof, jsHas]
    · simp [createProof]
  | stepped p goalId tactic cs ss fs ctr hp ih =>
    cases hg : jsGet p.goals goalId with
    | none =>
      have hred : applyTacticToProof p goalId tactic cs ss fs ctr =
          (p, .failure "Goal not found", ctr) := by
        simp only [applyTacticToProof, hg]
      rw [hred]
      exact ih
    | some goal =>
      by_cases hc : p.openGoals.contains goalId = true
      · cases har : applyTactic goal tactic cs ss fs ctr with
        | mk res ctr2 =>
          cases res with
          | failure e =>
            have hred : applyTacticToProof p goalId tactic cs ss fs ctr =
                (p, .failure e, ctr2) := by
              simp only [applyTacticToProof, hg, if_pos hc, har]
            rw [hred]
            exact ih
          | success gs0 msg0 =>
            have hred : applyTacticToProof p goalId tactic cs ss fs ctr =
                (⟨p.id, p.propertyId,
                  gs0.foldl (fun m g => jsSet m g.id g) p.goals,
                  p.steps ++ [⟨goalId, tactic, gs0.map ProofGoal.id⟩],
                  p.rootGoalId,
                  (p.openGoals.filter (fun i => i != goalId)) ++
                    gs0.map ProofGoal.id,
                  if ((p.openGoals.filter (fun i => i != goalId)) ++
                      gs0.map ProofGoal.id).length = 0 then .complete
                  else .incomplete⟩,
                 .success gs0 msg0, ctr2) := by
              simp only [applyTacticToProof, hg, if_pos hc, har]
            rw [hred]
            refine ⟨?_, ?_, ?_⟩
            · intro gid hgid
              rcases List.mem_append.mp hgid with hold | hnew
              · exact jsHas_foldl_of_base gs0 p.goals gid
                  (ih.1 gid (List.mem_filter.mp hold).1)
              · obtain ⟨g, hgmem, hgid2⟩ := List.mem_map.mp hnew
                subst hgid2
                exact jsHas_foldl_of_mem gs0 p.goals hgmem
            · exact jsHas_foldl_of_base gs0 p.goals p.rootGoalId ih.2.1
            · show (if (List.filter (fun i => i != goalId) p.openGoals ++
                    List.map ProofGoal.id gs0).length = 0
                  then ProofStatus.complete else ProofStatus.incomplete) =
                  ProofStatus.complete ↔
                List.filter (fun i => i != goalId) p.openGoals ++
                  List.map ProofGoal.id gs0 = []
              by_cases hlen :
                  (List.filter (fun i => i != goalId) p.openGoals ++
                    List.map ProofGoal.id gs0).length = 0
              · rw [if_pos hlen]
                simp only [true_iff, List.length_eq_zero.mp hlen]
              · rw [if_neg hlen]
                constructor
                · intro hst
                  exact ProofStatus.noConfusion hst
                · intro hemp
                  exact absurd (by rw [hemp]; rfl) hlen
      · have hred : applyTacticToProof p goalId tactic cs ss fs ctr =
            (p, .failure "Goal already proved", ctr) := by
          simp only [applyTacticToProof, hg, if_neg hc]
        rw [hred]
        exact ih

def c8Prop : Property := ⟨"prop-8", "truth", .true_, none⟩

theorem C8_witness : ProofInv (createProof c8Prop 0).1 :=
  C8_proof_invariants _ (ReachableProof.created c8Prop 0)

/-! ### The induction tactic (C3) -/

theorem mkIHs_proj (f : Formula) (v s : String) :
    ∀ (l : List (ConstructorArg × ProofVariable)) (ctr : Nat),
      (mkIHs f v s l ctr).1.map (fun h => (h.name, h.formula)) =
        (l.filter (fun p => p.1.sortId == s)).map
          (fun p => (s!"IH_{p.2.name}", substituteFormula f v (.var p.2.name)))
  | [], _ => rfl
  | (a, fv) :: rest, ctr => by
    unfold mkIHs
    rw [List.filter_cons]
    by_cases h : (a.sortId == s) = true
    · rw [if_pos h]
      dsimp only
      rw [if_pos h, List.map_cons, List.map_cons,
        mkIHs_proj f v s rest (ctr + 1)]
    · rw [if_neg h]
      dsimp only
      rw [if_neg h, mkIHs_proj f v s rest ctr]

/-- Specification-side description of one `induction` case goal for a
constructor `c` (following the claim wording, for comparison with the
code): the variable list drops the induction variable and appends the
fresh variables; the hypothesis list (compared by name and formula, since
hypothesis ids are freshly generated) extends the old one by
`IH_v : P[x := v]` for each fresh variable `v` standing for a constructor
argument of the induction sort; and the goal becomes
`P[x := C(freshVars)]`. -/
def specInductionCase (ctx : ProofContext) (P : Formula)
    (varName sortId : String) (c : Constructor) (g : ProofGoal) : Prop :=
  g.context.vars =
      ctx.vars.filter (fun w => w.name != varName) ++ freshVarsOf c ∧
  g.context.hypotheses.map (fun h => (h.name, h.formula)) =
      ctx.hypotheses.map (fun h => (h.name, h.formula)) ++
        ((c.args.zip (freshVarsOf c)).filter
          (fun p => p.1.sortId == sortId)).map
          (fun p => (s!"IH_{p.2.name}",
            substituteFormula P varName (.var p.2.name))) ∧
  g.goal = substituteFormula P varName
      (.constructor c.id
        ((freshVarsOf c).map (fun w => FormulaExpr.var w.name)))

theorem inductionGoals_cases (P : Formula) (varName sortId : String)
    (ctx : ProofContext) :
    ∀ (cl : List Constructor) (ctr : Nat),
      List.Forall₂ (specInductionCase ctx P varName sortId) cl
        (inductionGoals P varName sortId ctx cl ctr).1
  | [], _ => List.Forall₂.nil
  | c :: rest, ctr => by
    unfold inductionGoals
    dsimp only
    refine List.Forall₂.cons ?_
      (inductionGoals_cases P varName sortId ctx rest _)
    unfold inductionGoal
    dsimp only
    refine ⟨rfl, ?_, rfl⟩
    rw [List.map_append, mkIHs_proj]

/-- **C3** (corrected).  `induction(x)` fails when `x` is not in the
context, when its sort is absent or not inductive, and also — contrary to
the claim — when the sort has no registered constructors; otherwise it
succeeds with exactly one subgoal per constructor of the sort, in registry
order, each subgoal dropping `x`, appending the fresh variables, adding
`IH_v : P[x := v]` for every fresh variable of the induction sort, and
having goal `P[x := C(freshVars)]`. -/
theorem C3_induction_tactic (goal : ProofGoal) (varName : String)
    (cs : JsMap Constructor) (ss : JsMap SortRec) (fs : JsMap RecursiveFunc)
    (ctr : Nat) :
    (goal.context.vars.find? (fun v => v.name == varName) = none →
      (applyTactic goal (.induction varName) cs ss fs ctr).1 =
        .failure s!"Variable {varName} not in context") ∧
    (∀ varInfo,
      goal.context.vars.find? (fun v => v.name == varName) = some varInfo →
      (jsGet ss varInfo.sortId = none ∨
        ∃ sort, jsGet ss varInfo.sortId = some sort ∧
          sort.kind ≠ .inductive_) →
      (applyTactic goal (.induction varName) cs ss fs ctr).1 =
        .failure s!"Cannot do induction on {varName}: not an inductive type") ∧
    (∀ varInfo sort,
      goal.context.vars.find? (fun v => v.name == varName) = some varInfo →
      jsGet ss varInfo.sortId = some sort →
      sort.kind = .inductive_ →
      ∀ sortCtors, sortCtors =
          (cs.map Prod.snd).filter (fun c => c.sortId == varInfo.sortId) →
      (sortCtors = [] →
        (applyTactic goal (.induction varName) cs ss fs ctr).1 =
          .failure "No constructors found for sort") ∧
      (sortCtors ≠ [] →
        ∃ newGoals,
          (applyTactic goal (.induction varName) cs ss fs ctr).1 =
            .success newGoals
              s!"Induction on {varName} ({sortCtors.length} cases)" ∧
          List.Forall₂
            (specInductionCase goal.context goal.goal varName varInfo.sortId)
            sortCtors newGoals)) := by
  refine ⟨?_, ?_, ?_⟩
  · intro h
    simp only [applyTactic, h]
  · intro varInfo hfind hbad
    rcases hbad with hnone | ⟨sort, hsome, hne⟩
    · simp only [applyTactic, hfind, hnone]
    · simp only [applyTactic, hfind, hsome]
      rw [if_pos hne]
  · intro varInfo sort hfind hget hkind sortCtors hsc
    constructor
    · intro hnil
      simp only [applyTactic, hfind, hget]
      rw [if_neg (fun hk => hk hkind), ← hsc, if_pos (by rw [hnil]; rfl)]
    · intro hne
      simp only [applyTactic, hfind, hget]
      rw [if_neg (fun hk => hk hkind), ← hsc,
        if_neg (fun hlen => hne (List.length_eq_zero.mp hlen))]
      exact ⟨(inductionGoals goal.goal varName varInfo.sortId goal.context
          sortCtors ctr).1, rfl,
        inductionGoals_cases goal.goal varName varInfo.sortId goal.context
          sortCtors ctr⟩

/-- A context variable of an inductive sort with no registered
constructors: `induction` fails, refuting the claim that it succeeds
whenever the variable has an inductive sort. -/
theorem C3_counterexample :
    applyTactic ⟨"goal-0", ⟨[⟨"x", "sort-e"⟩], []⟩, .true_⟩ (.induction "x")
      [] [("sort-e", ⟨"sort-e", "E", .inductive_, false⟩)] [] 0 =
      (.failure "No constructors found for sort", 0) := rfl

def c3Ctors : JsMap Constructor :=
  [("ctor-z", ⟨"ctor-z", "nat", "Z", [], true⟩),
   ("ctor-s", ⟨"ctor-s", "nat", "S", [⟨"arg-s", "nat", some "n", false, []⟩],
     false⟩)]

def c3Sorts : JsMap SortRec := [("nat", ⟨"nat", "Nat", .inductive_, false⟩)]

def c3Goal : ProofGoal :=
  ⟨"goal-c3", ⟨[⟨"x", "nat"⟩], []⟩, .numEq (.var "x") (.var "x")⟩

theorem C3_witness :
    ∃ newGoals,
      (applyTactic c3Goal (.induction "x") c3Ctors c3Sorts [] 0).1 =
        .success newGoals "Induction on x (2 cases)" ∧
      List.Forall₂ (specInductionCase c3Goal.context c3Goal.goal "x" "nat")
        ((c3Ctors.map Prod.snd).filter (fun c => c.sortId == "nat"))
        newGoals :=
  ((C3_induction_tactic c3Goal "x" c3Ctors c3Sorts [] 0).2.2 ⟨"x", "nat"⟩
    ⟨"nat", "Nat", .inductive_, false⟩ rfl rfl rfl _ rfl).2
    (fun h => nomatch h)

/-! ## Store deletions (useStore.ts) -/

/-- `Map.delete(k)` on a JS map. -/
def jsDelete {α : Type} (m : JsMap α) (k : String) : JsMap α :=
  m.filter (fun e => e.1 != k)

/-- The registries of the store state touched by the deletion actions.
(The UI selection fields the deletions also reset are not part of the
registries and are omitted.) -/
structure Registry where
  sorts : JsMap SortRec
  constructors : JsMap Constructor
  judgments : JsMap Judgment
  rules : JsMap InferenceRule
  metaVariables : JsMap MetaVariable
  functions : JsMap RecursiveFunc
  properties : JsMap Property
  proofs : JsMap Proof

/-- `deleteSort(id)`: drop the sort and every constructor whose `sortId` is
the deleted sort (the source iterates the copied map and deletes matching
entries, which is a filter). -/
def deleteSort (state : Registry) (id : String) : Registry :=
  ⟨jsDelete state.sorts id,
   state.constructors.filter (fun e => e.2.sortId != id),
   state.judgments, state.rules, state.metaVariables, state.functions,
   state.properties, state.proofs⟩

/-- `deleteJudgment(id)`: drop the judgment, drop every rule whose
conclusion judgment is the deleted one, and filter premises referencing it
out of the remaining rules.  (The source rewrites a rule in place only when
its premise list shrank; rebuilding unconditionally yields the same map.) -/
def deleteJudgment (state : Registry) (id : String) : Registry :=
  ⟨state.sorts, state.constructors, jsDelete state.judgments id,
   state.rules.filterMap (fun e =>
     if e.2.conclusion.judgmentId == id then none
     else some (e.1, ⟨e.2.id, e.2.name,
       e.2.premises.filter (fun p => p.judgmentId != id),
       e.2.sideConditions, e.2.conclusion, e.2.position⟩)),
   state.metaVariables, state.functions, state.properties, state.proofs⟩

/-- `deleteProperty(id)`: drop the property and every proof whose
`propertyId` is the deleted property. -/
def deleteProperty (state : Registry) (id : String) : Registry :=
  ⟨state.sorts, state.constructors, state.judgments, state.rules,
   state.metaVariables, state.functions, jsDelete state.properties id,
   state.proofs.filter (fun e => e.2.propertyId != id)⟩

/-- **C9.**  `deleteSort` removes the sort and exactly the constructors of
that sort; `deleteJudgment` removes the judgment, exactly the rules
concluding it, and the premises referencing it from the surviving rules;
`deleteProperty` removes the property and exactly its proofs; all other
registries are untouched by each deletion. -/
theorem C9_delete_cascades (state : Registry) (id : String) :
    ((∀ k s, (k, s) ∈ (deleteSort state id).sorts ↔
        (k, s) ∈ state.sorts ∧ k ≠ id) ∧
     (∀ k c, (k, c) ∈ (deleteSort state id).constructors ↔
        (k, c) ∈ state.constructors ∧ c.sortId ≠ id) ∧
     (deleteSort state id).judgments = state.judgments ∧
     (deleteSort state id).rules = state.rules ∧
     (deleteSort state id).metaVariables = state.metaVariables ∧
     (deleteSort state id).functions = state.functions ∧
     (deleteSort state id).properties = state.properties ∧
     (deleteSort state id).proofs = state.proofs) ∧
    ((∀ k j, (k, j) ∈ (deleteJudgment state id).judgments ↔
        (k, j) ∈ state.judgments ∧ k ≠ id) ∧
     (∀ k r, (k, r) ∈ (deleteJudgment state id).rules ↔
        ∃ r0, (k, r0) ∈ state.rules ∧ r0.conclusion.judgmentId ≠ id ∧
          r = ⟨r0.id, r0.name,
            r0.premises.filter (fun p => p.judgmentId != id),
            r0.sideConditions, r0.conclusion, r0.position⟩) ∧
     (deleteJudgment state id).sorts = state.sorts ∧
     (deleteJudgment state id).constructors = state.constructors ∧
     (deleteJudgment state id).metaVariables = state.metaVariables ∧
     (deleteJudgment state id).functions = state.functions ∧
     (deleteJudgment state id).properties = state.properties ∧
     (deleteJudgment state id).proofs = state.proofs) ∧
    ((∀ k pr, (k, pr) ∈ (deleteProperty state id).properties ↔
        (k, pr) ∈ state.properties ∧ k ≠ id) ∧
     (∀ k pf, (k, pf) ∈ (deleteProperty state id).proofs ↔
        (k, pf) ∈ state.proofs ∧ pf.propertyId ≠ id) ∧
     (deleteProperty state id).sorts = state.sorts ∧
     (deleteProperty state id).constructors = state.constructors ∧
     (deleteProperty state id).judgments = state.judgments ∧
     (deleteProperty state id).rules = state.rules ∧
     (deleteProperty state id).metaVariables = state.metaVariables ∧
     (deleteProperty state id).functions = state.functions) := by
  refine ⟨⟨?_, ?_, rfl, rfl, rfl, rfl, rfl, rfl⟩,
    ⟨?_, ?_, rfl, rfl, rfl, rfl, rfl, rfl⟩,
    ⟨?_, ?_, rfl, rfl, rfl, rfl, rfl, rfl⟩⟩
  · intro k s
    simp [deleteSort, jsDelete, List.mem_filter]
  · intro k c
    simp [deleteSort, List.mem_filter]
  · intro k j
    simp [deleteJudgment, jsDelete, List.mem_filter]
  · intro k r
    show (k, r) ∈ state.rules.filterMap _ ↔ _
    rw [List.mem_filterMap]
    constructor
    · rintro ⟨⟨k0, r0⟩, hmem, hf⟩
      by_cases hcj : (r0.conclusion.judgmentId == id) = true
      · rw [if_pos hcj] at hf
        exact absurd hf (by simp)
      · rw [if_neg hcj] at hf
        injection hf with hf
        rw [Prod.mk.injEq] at hf
        exact ⟨r0, hf.1 ▸ hmem, by simpa using hcj, hf.2.symm⟩
    · rintro ⟨r0, hmem, hne, hr⟩
      refine ⟨(k, r0), hmem, ?_⟩
      rw [if_neg (by simpa using hne), hr]
  · intro k pr
    simp [deleteProperty, jsDelete, List.mem_filter]
  · intro k pf
    simp [deleteProperty, List.mem_filter]

def c9Ctor : Constructor := ⟨"c-1", "s-1", "A", [], true⟩

def c9Reg : Registry :=
  ⟨[("s-1", ⟨"s-1", "S1", .inductive_, false⟩),
    ("s-2", ⟨"s-2", "S2", .atom, false⟩)],
   [("c-1", c9Ctor)], [], [], [], [], [], []⟩

theorem C9_witness :
    ("c-1", c9Ctor) ∈ (deleteSort c9Reg "s-2").constructors :=
  ((C9_delete_cascades c9Reg "s-2").1.2.1 "c-1" c9Ctor).mpr
    ⟨List.mem_singleton.mpr rfl, by decide⟩

end TypesApp
